import Mathlib

/-!
Verification development for the skeletonizer conversion core
(`src/bin/skeletonize.py`): a shallow embedding of the graph-orientation,
validation and tree-growth engine, with theorems checking the
natural-language specification against the code.

Modelling conventions:
* node ids are `Nat`; Python dictionaries are association lists
  (`List (Nat × _)`), where assignment conses a binding at the front, so
  lookup (first match) has Python-dict semantics while the binding history
  stays observable;
* Python `set`s are duplicate-free `List`s with append-if-absent insertion
  (iteration order of a Python set is unspecified; only the membership
  structure is load-bearing, per the spec);
* scalars are real numbers (the code uses floats; we verify the exact-real
  semantics of the same expressions);
* the mutable `stats` object is a record threaded through the functions;
* a failing Python `assert` is modelled as a sticky error flag on the
  state: once set, the remaining steps leave the state unchanged (the
  Python process would have aborted at that point).
-/

namespace Skeletonizer

/-! ### Graph dictionaries

`Graph` models both the bidirectional node-id graph (`defaultdict(set)`)
and the directed-edge dictionary of `create_directed_graph`. -/

abbrev Graph := List (Nat × List Nat)

/-- Membership of a key in an association list (`k in d` on a Python dict). -/
def keymem {β : Type _} (m : List (Nat × β)) (k : Nat) : Bool :=
  m.any (fun kv => kv.1 == k)

/-- `d[k]` on a `defaultdict(set)` / `defaultdict(list)`: missing keys read
as the empty collection. -/
def dget {β : Type _} (m : List (Nat × List β)) (k : Nat) : List β :=
  match m with
  | [] => []
  | kv :: t => if k = kv.1 then kv.2 else dget t k

/-- `edges[n].add(nn)` on a dict of sets: append `nn` to the entry of `n`
if not already present. -/
def edgesAdd (E : Graph) (n nn : Nat) : Graph :=
  E.map (fun kv =>
    if kv.1 == n then (kv.1, if nn ∈ kv.2 then kv.2 else kv.2 ++ [nn]) else kv)

/-- `if n not in edges: edges[n] = set()`. -/
def edgesInitKey (E : Graph) (n : Nat) : Graph :=
  if keymem E n then E else E ++ [(n, [])]

/-- Statistics collector (`morph_statistics`): the warning/info counters,
plus `node_grow_stats` mapping a grown BBPSDK handle to the positions grown
from it.  Handles are `Nat` (see the morphology sink model below); positions are
recorded in a payload type `γ` supplied later. -/
structure Stats (γ : Type _) where
  warn_unconnected_segments : Nat := 0
  warn_ignored_edges : Nat := 0
  warn_max_grow_depth_reached : Nat := 0
  warn_cut_nodes_found : Nat := 0
  info_ignored_positions : Nat := 0
  node_grow_stats : List (Nat × List γ) := []
  deriving Repr

/-- Growth/graph options (`morph_options`).  `log_level` models the global
`logging` effective level consulted by the growth code (`create_morphology`
derives `k_CONNECT_SOMA_SOMA`, `k_CLIP_INSIDE_SOMA` and `k_INFLATE_SOMA`
from the same verbosity value; the functions themselves read the fields
independently, so the model keeps them independent). -/
structure GrowOptions where
  k_ALLOW_CYCLES : Bool
  k_CONNECT_SOMA_SOMA : Bool
  k_SEGMENT_THRESHOLD_SQR : ℝ
  k_CLIP_INSIDE_SOMA : Bool
  k_INFLATE_SOMA : Bool
  k_SCALING_FACTOR : ℝ
  k_CUTPOINT_AABB : Option ((ℝ × ℝ × ℝ) × (ℝ × ℝ × ℝ))
  log_level : Int

/-! ### Segments and the adjacency builder (`create_node_graph`) -/

/-- An Amiramesh segment: endpoint node ids plus the ordered sample points.
The point payload is a type parameter: the graph functions never inspect
it, the growth functions instantiate it with position+diameter samples. -/
structure Segment (α : Type _) where
  start : Nat
  end_ : Nat
  points : List α
  deriving Repr, DecidableEq

/-- `create_node_graph`: bidirectional edge dictionary from the segment
list; every segment contributes both directions. -/
def create_node_graph {α : Type _} (segments : List (Segment α)) : Graph :=
  segments.foldl
    (fun edges segm =>
      edgesAdd (edgesInitKey (edgesAdd (edgesInitKey edges segm.start) segm.start segm.end_)
        segm.end_) segm.end_ segm.start)
    []

/-! ### Root orientation engine (`create_directed_graph`)

The worklist loop is modelled twice, from the same step function:
`cdgRun` is a fuel-indexed iteration of the loop body (used to evaluate
concrete runs and to do induction), and `cdgGo` is the loop itself, shown
terminating by a lexicographic measure.  `create_directed_graph` is the
`cdgGo` version. -/

/-- State of the `create_directed_graph` worklist loop.  `γ` is the stats
payload type. -/
structure CdgState (γ : Type _) where
  frontier : List Nat
  visited : List Nat
  edges : Graph
  stats : Stats γ

/-- Body of `for nn in neighbours` in `create_directed_graph`: push `nn`
when unvisited; add the directed edge when the root-adjacency and cycle
policies allow it, otherwise count an ignored edge.  `visited` already
contains the node being explored, as in the source (`visited.append(n)`
precedes the loop). -/
def cdgNeighbor {γ : Type _} (somanodes : List Nat) (options : GrowOptions)
    (n : Nat) (st : CdgState γ) (nn : Nat) : CdgState γ :=
  let is_visited := nn ∈ st.visited
  let st' := if is_visited then st else { st with frontier := st.frontier ++ [nn] }
  if (options.k_CONNECT_SOMA_SOMA || !(somanodes.contains nn))
      && (options.k_ALLOW_CYCLES || !is_visited) then
    { st' with edges := edgesAdd st'.edges n nn }
  else
    { st' with stats := { st'.stats with
        warn_ignored_edges := st'.stats.warn_ignored_edges + 1 } }

/-- One iteration of the worklist loop, for frontier head `n` (the source
pops `frontier[0]`, appends it to `visited`, ensures `edges[n]` exists,
then explores the neighbours). -/
def cdgStep {γ : Type _} (somanodes : List Nat) (nodesgraph : Graph)
    (options : GrowOptions) (n : Nat) (st : CdgState γ) : CdgState γ :=
  (dget nodesgraph n).foldl (cdgNeighbor somanodes options n)
    { st with visited := st.visited ++ [n], edges := edgesInitKey st.edges n }

/-- Fuel-indexed iteration of the worklist loop. -/
def cdgRun {γ : Type _} (somanodes : List Nat) (nodesgraph : Graph)
    (options : GrowOptions) : Nat → CdgState γ → CdgState γ
  | 0, st => st
  | fuel + 1, st =>
    match st.frontier with
    | [] => st
    | n :: rest =>
      cdgRun somanodes nodesgraph options fuel
        (cdgStep somanodes nodesgraph options n { st with frontier := rest })

/-- A neighbour step never touches the visited list. -/
theorem cdgNeighbor_visited {γ : Type _} (sn : List Nat) (o : GrowOptions)
    (n : Nat) (st : CdgState γ) (nn : Nat) :
    (cdgNeighbor sn o n st nn).visited = st.visited := by
  unfold cdgNeighbor
  dsimp only
  split <;> split <;> rfl

/-- A neighbour step pushes `nn` exactly when it is unvisited. -/
theorem cdgNeighbor_frontier {γ : Type _} (sn : List Nat) (o : GrowOptions)
    (n : Nat) (st : CdgState γ) (nn : Nat) :
    (cdgNeighbor sn o n st nn).frontier =
      st.frontier ++ (if nn ∈ st.visited then [] else [nn]) := by
  unfold cdgNeighbor
  dsimp only
  split <;> split <;> simp_all

/-- Folding the neighbour step over a neighbour list preserves the visited
list and only appends unvisited members of the list to the frontier. -/
theorem cdg_fold_spec {γ : Type _} (sn : List Nat) (o : GrowOptions) (n : Nat)
    (l : List Nat) (s0 : CdgState γ) :
    (l.foldl (cdgNeighbor sn o n) s0).visited = s0.visited ∧
    ∃ ext, (l.foldl (cdgNeighbor sn o n) s0).frontier = s0.frontier ++ ext ∧
      ∀ x ∈ ext, x ∈ l ∧ x ∉ s0.visited := by
  induction l generalizing s0 with
  | nil => exact ⟨rfl, [], by simp, by simp⟩
  | cons a t ih =>
    obtain ⟨hv, ext, hf, hx⟩ := ih (cdgNeighbor sn o n s0 a)
    simp only [List.foldl_cons]
    refine ⟨by rw [hv, cdgNeighbor_visited], ?_⟩
    by_cases ha : a ∈ s0.visited
    · refine ⟨ext, ?_, ?_⟩
      · rw [hf, cdgNeighbor_frontier, if_pos ha, List.append_nil]
      · intro x hxe
        obtain ⟨hxt, hxv⟩ := hx x hxe
        exact ⟨List.mem_cons_of_mem _ hxt,
          (cdgNeighbor_visited sn o n s0 a) ▸ hxv⟩
    · refine ⟨a :: ext, ?_, ?_⟩
      · rw [hf, cdgNeighbor_frontier, if_neg ha]
        simp only [List.append_assoc, List.singleton_append]
      · intro x hxe
        rcases List.mem_cons.mp hxe with h | h
        · exact ⟨by simp [h], h ▸ ha⟩
        · obtain ⟨hxt, hxv⟩ := hx x h
          exact ⟨List.mem_cons_of_mem _ hxt,
            (cdgNeighbor_visited sn o n s0 a) ▸ hxv⟩

/-- Visited list after one worklist iteration. -/
theorem cdgStep_visited {γ : Type _} (sn : List Nat) (g : Graph)
    (o : GrowOptions) (n : Nat) (st : CdgState γ) :
    (cdgStep sn g o n st).visited = st.visited ++ [n] := by
  unfold cdgStep
  simpa using (cdg_fold_spec sn o n (dget g n)
    { st with visited := st.visited ++ [n], edges := edgesInitKey st.edges n }).1

/-- Frontier after one worklist iteration: the old frontier plus pushed
neighbours, each an unvisited member of the neighbour list. -/
theorem cdgStep_frontier {γ : Type _} (sn : List Nat) (g : Graph)
    (o : GrowOptions) (n : Nat) (st : CdgState γ) :
    ∃ ext, (cdgStep sn g o n st).frontier = st.frontier ++ ext ∧
      ∀ x ∈ ext, x ∈ dget g n ∧ x ∉ st.visited ++ [n] := by
  unfold cdgStep
  simpa using (cdg_fold_spec sn o n (dget g n)
    { st with visited := st.visited ++ [n], edges := edgesInitKey st.edges n }).2

/-- All node ids the worklist can ever contain: the roots plus every key
and every neighbour value of the bidirectional graph. -/
def univOf (nodesgraph : Graph) (roots : List Nat) : Finset Nat :=
  (roots ++ nodesgraph.foldr (fun kv acc => kv.1 :: (kv.2 ++ acc)) []).toFinset

theorem dget_mem_univOf {g : Graph} {roots : List Nat} {n x : Nat}
    (hx : x ∈ dget g n) : x ∈ univOf g roots := by
  induction g with
  | nil => simp [dget] at hx
  | cons kv t ih =>
    obtain ⟨a, v⟩ := kv
    simp only [univOf, List.foldr_cons, List.mem_toFinset, List.mem_append,
      List.mem_cons]
    rw [dget] at hx
    by_cases h : n = a
    · rw [if_pos h] at hx
      exact Or.inr (Or.inr (by simp [hx]))
    · rw [if_neg h] at hx
      have := ih hx
      simp only [univOf, List.mem_toFinset, List.mem_append] at this
      rcases this with h' | h'
      · exact Or.inl h'
      · exact Or.inr (Or.inr (by simp [h']))

theorem roots_mem_univOf {g : Graph} {roots : List Nat} {x : Nat}
    (hx : x ∈ roots) : x ∈ univOf g roots := by
  simp [univOf, hx]

/-- Popping an already-visited node keeps the unvisited part of the
universe unchanged. -/
theorem cdgStep_card_eq {γ : Type _} (sn : List Nat) (g : Graph)
    (o : GrowOptions) (n : Nat) (st : CdgState γ) (univ : Finset Nat)
    (hn : n ∈ st.visited) :
    (univ \ (cdgStep sn g o n st).visited.toFinset).card =
      (univ \ st.visited.toFinset).card := by
  rw [cdgStep_visited]
  congr 2
  ext a
  simp only [List.toFinset_append, Finset.mem_union, List.mem_toFinset,
    List.toFinset_cons, List.toFinset_nil]
  constructor
  · rintro (h | h)
    · exact h
    · simp only [insert_emptyc_eq, Finset.mem_singleton] at h
      exact h ▸ hn
  · exact Or.inl

/-- Popping an already-visited frontier head strictly decreases the number
of visited entries in the frontier: the popped entry is visited, every
pushed entry is not. -/
theorem cdgStep_countP_lt {γ : Type _} (sn : List Nat) (g : Graph)
    (o : GrowOptions) (n : Nat) (rest : List Nat) (st : CdgState γ)
    (hn : n ∈ st.visited) :
    (cdgStep sn g o n { st with frontier := rest }).frontier.countP
        (fun x => decide (x ∈ (cdgStep sn g o n { st with frontier := rest }).visited)) <
      (n :: rest).countP (fun x => decide (x ∈ st.visited)) := by
  have hvis := cdgStep_visited sn g o n { st with frontier := rest }
  obtain ⟨ext, hfr, hx⟩ := cdgStep_frontier sn g o n { st with frontier := rest }
  have hext : (ext.countP (fun x => decide (x ∈ (st.visited ++ [n])))) = 0 := by
    rw [List.countP_eq_zero]
    intro x hxm
    simpa using (hx x hxm).2
  calc (cdgStep sn g o n { st with frontier := rest }).frontier.countP
          (fun x => decide (x ∈ (cdgStep sn g o n { st with frontier := rest }).visited))
      = (rest ++ ext).countP (fun x => decide (x ∈ (st.visited ++ [n]))) := by
        rw [hfr, hvis]
    _ = rest.countP (fun x => decide (x ∈ (st.visited ++ [n]))) := by
        rw [List.countP_append, hext, Nat.add_zero]
    _ = rest.countP (fun x => decide (x ∈ st.visited)) := by
        apply List.countP_congr
        intro x _
        simp only [decide_eq_true_eq, List.mem_append, List.mem_cons,
          List.not_mem_nil, or_false]
        constructor
        · rintro (h | h)
          · exact h
          · exact h ▸ hn
        · exact Or.inl
    _ < (n :: rest).countP (fun x => decide (x ∈ st.visited)) := by
        rw [List.countP_cons]
        simp [hn]

/-- Popping an unvisited node strictly shrinks the unvisited part of the
universe. -/
theorem cdgStep_card_lt {γ : Type _} (sn : List Nat) (g : Graph)
    (o : GrowOptions) (n : Nat) (st : CdgState γ) (univ : Finset Nat)
    (hn : n ∉ st.visited) (hnu : n ∈ univ) :
    (univ \ (cdgStep sn g o n st).visited.toFinset).card <
      (univ \ st.visited.toFinset).card := by
  rw [cdgStep_visited]
  apply Finset.card_lt_card
  constructor
  · intro a ha
    simp only [Finset.mem_sdiff, List.mem_toFinset, List.toFinset_append,
      Finset.mem_union, List.toFinset_cons, List.toFinset_nil] at ha ⊢
    exact ⟨ha.1, fun h => ha.2 (Or.inl h)⟩
  · intro hsub
    have : n ∈ univ \ st.visited.toFinset := by
      simp only [Finset.mem_sdiff, List.mem_toFinset]
      exact ⟨hnu, hn⟩
    have := hsub this
    simp only [Finset.mem_sdiff, List.mem_toFinset, List.toFinset_append,
      Finset.mem_union, List.toFinset_cons, List.toFinset_nil] at this
    exact this.2 (Or.inr (by simp))

/-- The worklist loop of `create_directed_graph` (`while frontier: ...`),
as a total function: it terminates because each iteration either visits a
new node of the finite universe or consumes a worklist duplicate of an
already-visited node. -/
def cdgGo {γ : Type _} (somanodes : List Nat) (nodesgraph : Graph)
    (options : GrowOptions) (univ : Finset Nat)
    (huniv : ∀ n x, x ∈ dget nodesgraph n → x ∈ univ) :
    (st : CdgState γ) → (∀ x ∈ st.frontier, x ∈ univ) → CdgState γ
  | st, hF =>
    match hm : st.frontier with
    | [] => st
    | n :: rest =>
      cdgGo somanodes nodesgraph options univ huniv
        (cdgStep somanodes nodesgraph options n { st with frontier := rest })
        (by
          obtain ⟨ext, hfr, hx⟩ := cdgStep_frontier somanodes nodesgraph options n
            { st with frontier := rest }
          rw [hfr]
          intro x hxm
          rcases List.mem_append.mp hxm with h | h
          · exact hF x (by rw [hm]; exact List.mem_cons_of_mem _ h)
          · exact huniv n x (hx x h).1)
termination_by st _ => ((univ \ st.visited.toFinset).card,
  st.frontier.countP (fun x => decide (x ∈ st.visited)))
decreasing_by
  by_cases hn : n ∈ st.visited
  · rw [cdgStep_card_eq somanodes nodesgraph options n
      { st with frontier := rest } univ hn]
    apply Prod.Lex.right
    exact lt_of_lt_of_eq (cdgStep_countP_lt somanodes nodesgraph options n rest st hn)
      (by rw [hm])
  · exact Prod.Lex.left _ _ (cdgStep_card_lt somanodes nodesgraph options n
      { st with frontier := rest } univ hn
      (hF n (by rw [hm]; exact List.mem_cons_self _ _)))

/-- The frontier stays inside the universe across one worklist iteration. -/
theorem cdgStep_frontier_univ {γ : Type _} (somanodes : List Nat)
    {nodesgraph : Graph} (options : GrowOptions) {univ : Finset Nat}
    (huniv : ∀ n x, x ∈ dget nodesgraph n → x ∈ univ) {st : CdgState γ}
    (hF : ∀ x ∈ st.frontier, x ∈ univ) {n : Nat} {rest : List Nat}
    (hm : st.frontier = n :: rest) :
    ∀ x ∈ (cdgStep somanodes nodesgraph options n
      { st with frontier := rest }).frontier, x ∈ univ := by
  obtain ⟨ext, hfr, hx⟩ := cdgStep_frontier somanodes nodesgraph options n
    { st with frontier := rest }
  rw [hfr]
  intro x hxm
  rcases List.mem_append.mp hxm with hxr | hxe
  · exact hF x (by rw [hm]; exact List.mem_cons_of_mem _ hxr)
  · exact huniv n x (hx x hxe).1

theorem cdgGo_nil {γ : Type _} {somanodes : List Nat} {nodesgraph : Graph}
    {options : GrowOptions} {univ : Finset Nat}
    {huniv : ∀ n x, x ∈ dget nodesgraph n → x ∈ univ} {st : CdgState γ}
    {hF : ∀ x ∈ st.frontier, x ∈ univ} (hm : st.frontier = []) :
    cdgGo somanodes nodesgraph options univ huniv st hF = st := by
  rw [cdgGo]
  split
  · rfl
  · next n rest hm' => rw [hm] at hm'; cases hm'

theorem cdgGo_cons {γ : Type _} {somanodes : List Nat} {nodesgraph : Graph}
    {options : GrowOptions} {univ : Finset Nat}
    {huniv : ∀ n x, x ∈ dget nodesgraph n → x ∈ univ} {st : CdgState γ}
    {hF : ∀ x ∈ st.frontier, x ∈ univ} {n : Nat} {rest : List Nat}
    (hm : st.frontier = n :: rest)
    (hF' : ∀ x ∈ (cdgStep somanodes nodesgraph options n
      { st with frontier := rest }).frontier, x ∈ univ) :
    cdgGo somanodes nodesgraph options univ huniv st hF =
      cdgGo somanodes nodesgraph options univ huniv
        (cdgStep somanodes nodesgraph options n { st with frontier := rest }) hF' := by
  rw [cdgGo]
  split
  · next hm' => rw [hm] at hm'; cases hm'
  · next n' rest' hm' =>
    rw [hm] at hm'
    cases hm'
    rfl

/-- Bridge between the loop (`cdgGo`) and its fuel-indexed iteration: if
`cdgRun` empties the worklist within `N` iterations, the loop returns the
same final state. -/
theorem cdgGo_eq_cdgRun {γ : Type _} (somanodes : List Nat)
    (nodesgraph : Graph) (options : GrowOptions) (univ : Finset Nat)
    (huniv : ∀ n x, x ∈ dget nodesgraph n → x ∈ univ) :
    ∀ (N : Nat) (st : CdgState γ) (hF : ∀ x ∈ st.frontier, x ∈ univ),
      (cdgRun somanodes nodesgraph options N st).frontier = [] →
      cdgGo somanodes nodesgraph options univ huniv st hF =
        cdgRun somanodes nodesgraph options N st := by
  intro N
  induction N with
  | zero =>
    intro st hF h
    rw [cdgRun] at h ⊢
    exact cdgGo_nil h
  | succ k ih =>
    intro st hF h
    rw [cdgRun] at h ⊢
    cases hm : st.frontier with
    | nil => exact cdgGo_nil hm
    | cons n rest =>
      have hF' := cdgStep_frontier_univ somanodes options huniv hF hm
      rw [cdgGo_cons hm hF']
      refine ih _ hF' ?_
      rw [hm] at h
      exact h

/-- Termination of the worklist loop: some finite fuel empties the
frontier. -/
theorem cdgRun_completes {γ : Type _} (somanodes : List Nat)
    (nodesgraph : Graph) (options : GrowOptions) (univ : Finset Nat)
    (huniv : ∀ n x, x ∈ dget nodesgraph n → x ∈ univ) :
    ∀ (a b : Nat) (st : CdgState γ), (∀ x ∈ st.frontier, x ∈ univ) →
      (univ \ st.visited.toFinset).card = a →
      st.frontier.countP (fun x => decide (x ∈ st.visited)) = b →
      ∃ N, (cdgRun somanodes nodesgraph options N st).frontier = [] := by
  intro a
  induction a using Nat.strong_induction_on with
  | _ a iha =>
    intro b
    induction b using Nat.strong_induction_on with
    | _ b ihb =>
      intro st hF hca hcb
      cases hm : st.frontier with
      | nil => exact ⟨1, by rw [cdgRun, hm]; exact hm⟩
      | cons n rest =>
        have hF' := cdgStep_frontier_univ somanodes options huniv hF hm
        by_cases hn : n ∈ st.visited
        · obtain ⟨N, hN⟩ := ihb
            ((cdgStep somanodes nodesgraph options n
              { st with frontier := rest }).frontier.countP
              (fun x => decide (x ∈ (cdgStep somanodes nodesgraph options n
                { st with frontier := rest }).visited)))
            (by
              rw [← hcb, hm]
              exact cdgStep_countP_lt somanodes nodesgraph options n rest st hn)
            (cdgStep somanodes nodesgraph options n { st with frontier := rest })
            hF'
            (by rw [← hca]
                exact cdgStep_card_eq somanodes nodesgraph options n
                  { st with frontier := rest } univ hn)
            rfl
          exact ⟨N + 1, by rw [cdgRun, hm]; exact hN⟩
        · obtain ⟨N, hN⟩ := iha
            ((univ \ (cdgStep somanodes nodesgraph options n
              { st with frontier := rest }).visited.toFinset).card)
            (by
              rw [← hca]
              exact cdgStep_card_lt somanodes nodesgraph options n
                { st with frontier := rest } univ hn
                (hF n (by rw [hm]; exact List.mem_cons_self _ _)))
            _
            (cdgStep somanodes nodesgraph options n { st with frontier := rest })
            hF' rfl rfl
          exact ⟨N + 1, by rw [cdgRun, hm]; exact hN⟩

/-- `create_directed_graph`: multi-source traversal from the soma nodes
producing the directed edge dictionary; the ignored-edge statistic is
recorded on the returned stats. -/
def create_directed_graph {γ : Type _} (somanodes : List Nat)
    (nodesgraph : Graph) (options : GrowOptions) (stats : Stats γ) :
    Graph × Stats γ :=
  let final := cdgGo somanodes nodesgraph options (univOf nodesgraph somanodes)
    (fun _ _ hx => dget_mem_univOf hx)
    { frontier := somanodes, visited := [], edges := [], stats := stats }
    (fun _ hx => roots_mem_univOf hx)
  (final.edges, final.stats)

/-- Modelled from the spec (§4.2 design note / §9): a worklist traversal
that deduplicates the worklist — a popped node that is already visited is
skipped without being re-processed.  The spec asserts this "changes
neither the resulting DAG nor the ignored-edge statistic"; it is defined
here only to compare observable results with `create_directed_graph`. -/
def cdgDedupRun {γ : Type _} (somanodes : List Nat) (nodesgraph : Graph)
    (options : GrowOptions) : Nat → CdgState γ → CdgState γ
  | 0, st => st
  | fuel + 1, st =>
    match st.frontier with
    | [] => st
    | n :: rest =>
      if n ∈ st.visited then
        cdgDedupRun somanodes nodesgraph options fuel { st with frontier := rest }
      else
        cdgDedupRun somanodes nodesgraph options fuel
          (cdgStep somanodes nodesgraph options n { st with frontier := rest })

/-! ### Segment orientation mapper (`create_node_segments_dict`) -/

/-- The oriented-segment map (`defaultdict(list)` keyed by start node). -/
abbrev NodeSegments (α : Type _) := List (Nat × List (Segment α))

/-- `nodesegments[k].append(seg)` on a `defaultdict(list)`. -/
def nsAppend {α : Type _} (m : NodeSegments α) (k : Nat) (seg : Segment α) :
    NodeSegments α :=
  if keymem m k then
    m.map (fun kv => if kv.1 == k then (kv.1, kv.2 ++ [seg]) else kv)
  else
    m ++ [(k, [seg])]

/-- The point-reversed copy of a segment
(`r.start, r.end = s.end, s.start; r.points = reversed(s.points)`). -/
def seg_reversed {α : Type _} (s : Segment α) : Segment α :=
  { start := s.end_, end_ := s.start, points := s.points.reverse }

/-- `s.start in dgraph and s.end in dgraph[s.start]`. -/
def dgraphHasEdge (dg : Graph) (a b : Nat) : Bool :=
  keymem dg a && (dget dg a).contains b

/-- Loop body of `create_node_segments_dict` for one segment. -/
def nodeSegmentsStep {α γ : Type _} (dg : Graph)
    (acc : NodeSegments α × Stats γ) (s : Segment α) :
    NodeSegments α × Stats γ :=
  let m := acc.1
  let stats := acc.2
  let c1 := dgraphHasEdge dg s.start s.end_
  let m1 := if c1 then nsAppend m s.start s else m
  let c2 := dgraphHasEdge dg s.end_ s.start
  let m2 := if c2 then nsAppend m1 s.end_ (seg_reversed s) else m1
  if c1 || c2 then (m2, stats)
  else (m2, { stats with
    warn_unconnected_segments := stats.warn_unconnected_segments + 1 })

/-- `create_node_segments_dict`: orient each raw segment against the
directed graph, counting segments connected in neither direction. -/
def create_node_segments_dict {α γ : Type _} (segments : List (Segment α))
    (dgraph : Graph) (stats : Stats γ) : NodeSegments α × Stats γ :=
  segments.foldl (nodeSegmentsStep dgraph) ([], stats)

/-! ### Graph validator (`validate_graph_segments`)

The Python function is a sequence of `assert`s; the model returns `true`
iff none of them fails.  Note the `defaultdict` access
`nodesegments[nidx]` in the first loop inserts an empty entry for every
`dgraph` key missing from `nodesegments`; such entries pass every check of
the second loop vacuously (their key is a `dgraph` key, their segment list
is empty), so the model iterates the original entries. -/
def validate_graph_segments {α : Type _} (dgraph : Graph)
    (nodesegments : NodeSegments α) (somanodes : Option (List Nat)) : Bool :=
  (dgraph.all (fun nc =>
    ((nc.2.isEmpty || keymem nodesegments nc.1) ||
      (match somanodes with
       | none => false
       | some l => !l.isEmpty && nc.2.all (fun c => l.contains c))) &&
    (nc.2.all (fun c => ((dget nodesegments nc.1).map (fun s => s.end_)).contains c))))
  &&
  (nodesegments.all (fun kv =>
    keymem dgraph kv.1 &&
    ((kv.2.map (fun s => s.start)).isEmpty ||
      (kv.2.map (fun s => s.start)).all (fun x => x == kv.1)) &&
    ((kv.2.map (fun s => s.end_)).all (fun c => keymem dgraph c))))

/-- The `somanodes` argument that `create_morphology` passes to
`validate_graph_segments`:
`soma_node_idxs if morph_options.k_CONNECT_SOMA_SOMA else None`. -/
def create_morphology_validator_somanodes (options : GrowOptions)
    (soma_node_idxs : List Nat) : Option (List Nat) :=
  if options.k_CONNECT_SOMA_SOMA then some soma_node_idxs else none

/-! ### Reachability and worklist invariants -/

/-- Reachability from the root set along the (undirected, symmetric by
construction) node graph. -/
inductive Reaches (g : Graph) (roots : List Nat) : Nat → Prop
  | root {n : Nat} : n ∈ roots → Reaches g roots n
  | step {m n : Nat} : Reaches g roots m → n ∈ dget g m → Reaches g roots n

theorem keymem_edgesAdd (E : Graph) (n nn k : Nat) :
    keymem (edgesAdd E n nn) k = keymem E k := by
  induction E with
  | nil => rfl
  | cons kv t ih =>
    simp only [edgesAdd, List.map_cons, keymem, List.any_cons] at *
    have h1 : (if (kv.1 == n) = true then
        (kv.1, if nn ∈ kv.2 then kv.2 else kv.2 ++ [nn]) else kv).1 = kv.1 := by
      split <;> rfl
    rw [h1, ih]

theorem keymem_edgesInitKey_self (E : Graph) (n : Nat) :
    keymem (edgesInitKey E n) n = true := by
  unfold edgesInitKey
  split
  · assumption
  · simp [keymem]

theorem keymem_edgesInitKey_mono (E : Graph) (n k : Nat)
    (h : keymem E k = true) : keymem (edgesInitKey E n) k = true := by
  unfold edgesInitKey
  split
  · exact h
  · simp [keymem] at h ⊢
    exact Or.inl h

/-- The neighbour fold does not change which keys `edges` has. -/
theorem cdg_fold_edges_keymem {γ : Type _} (sn : List Nat) (o : GrowOptions)
    (n : Nat) (l : List Nat) (s0 : CdgState γ) (k : Nat) :
    keymem (l.foldl (cdgNeighbor sn o n) s0).edges k = keymem s0.edges k := by
  induction l generalizing s0 with
  | nil => rfl
  | cons a t ih =>
    rw [List.foldl_cons, ih]
    show keymem (cdgNeighbor sn o n s0 a).edges k = keymem s0.edges k
    unfold cdgNeighbor
    dsimp only
    split
    · split <;> simp [keymem_edgesAdd]
    · split <;> rfl

/-- Every neighbour in the explored list ends up visited or on the
frontier after the fold. -/
theorem cdg_fold_frontier_complete {γ : Type _} (sn : List Nat)
    (o : GrowOptions) (n : Nat) (l : List Nat) (s0 : CdgState γ) :
    ∀ x ∈ l, x ∈ s0.visited ∨ x ∈ (l.foldl (cdgNeighbor sn o n) s0).frontier := by
  induction l generalizing s0 with
  | nil => simp
  | cons a t ih =>
    intro x hx
    rw [List.foldl_cons]
    rcases List.mem_cons.mp hx with rfl | hxt
    · by_cases ha : x ∈ s0.visited
      · exact Or.inl ha
      · right
        obtain ⟨_, ext, hf, _⟩ := cdg_fold_spec sn o n t (cdgNeighbor sn o n s0 x)
        rw [hf, cdgNeighbor_frontier, if_neg ha]
        simp
    · rcases ih (cdgNeighbor sn o n s0 a) x hxt with h | h
      · exact Or.inl ((cdgNeighbor_visited sn o n s0 a) ▸ h)
      · exact Or.inr h

/-- The loop invariant of `create_directed_graph`: every neighbour of a
visited node is visited or queued, and every visited node has an entry in
the edge dictionary. -/
def CdgInv {γ : Type _} (g : Graph) (st : CdgState γ) : Prop :=
  (∀ m ∈ st.visited, ∀ x ∈ dget g m, x ∈ st.visited ∨ x ∈ st.frontier) ∧
  (∀ m ∈ st.visited, keymem st.edges m = true)

theorem cdgStep_inv {γ : Type _} (sn : List Nat) (g : Graph) (o : GrowOptions)
    (n : Nat) (rest : List Nat) (st : CdgState γ) (hm : st.frontier = n :: rest)
    (hInv : CdgInv g st) :
    CdgInv g (cdgStep sn g o n { st with frontier := rest }) ∧
    (∀ x ∈ st.visited, x ∈ (cdgStep sn g o n { st with frontier := rest }).visited) ∧
    (∀ x ∈ st.frontier,
      x ∈ (cdgStep sn g o n { st with frontier := rest }).visited ∨
      x ∈ (cdgStep sn g o n { st with frontier := rest }).frontier) := by
  have hvis := cdgStep_visited sn g o n { st with frontier := rest }
  obtain ⟨ext, hfr, _⟩ := cdgStep_frontier sn g o n { st with frontier := rest }
  have hvmono : ∀ x ∈ st.visited,
      x ∈ (cdgStep sn g o n { st with frontier := rest }).visited := by
    intro x hx
    rw [hvis]
    exact List.mem_append.mpr (Or.inl hx)
  have hfro : ∀ x ∈ st.frontier,
      x ∈ (cdgStep sn g o n { st with frontier := rest }).visited ∨
      x ∈ (cdgStep sn g o n { st with frontier := rest }).frontier := by
    intro x hx
    rw [hm] at hx
    rcases List.mem_cons.mp hx with rfl | hxr
    · left
      rw [hvis]
      simp
    · right
      rw [hfr]
      exact List.mem_append.mpr (Or.inl hxr)
  refine ⟨⟨?_, ?_⟩, hvmono, hfro⟩
  · intro m hmv x hx
    rw [hvis] at hmv
    rcases List.mem_append.mp hmv with hmv | hmn
    · rcases hInv.1 m hmv x hx with h | h
      · exact Or.inl (hvmono x h)
      · exact hfro x h
    · have hmn : m = n := by simpa using hmn
      subst hmn
      -- x is a neighbour of the popped node: the fold visits or queues it
      have := cdg_fold_frontier_complete sn o m (dget g m)
        { st with
          frontier := rest
          visited := st.visited ++ [m]
          edges := edgesInitKey st.edges m } x hx
      rcases this with h | h
      · exact Or.inl (by rw [hvis]; exact h)
      · exact Or.inr (by exact h)
  · intro m hmv
    rw [hvis] at hmv
    have hkeys : ∀ k, keymem (cdgStep sn g o n { st with frontier := rest }).edges k =
        keymem (edgesInitKey st.edges n) k := by
      intro k
      unfold cdgStep
      exact cdg_fold_edges_keymem sn o n (dget g n) _ k
    rcases List.mem_append.mp hmv with hmv | hmn
    · rw [hkeys]
      exact keymem_edgesInitKey_mono _ _ _ (hInv.2 m hmv)
    · have : m = n := by simpa using hmn
      subst this
      rw [hkeys]
      exact keymem_edgesInitKey_self _ _

/-- The invariant is preserved by any number of loop iterations, visited
nodes stay visited, and frontier entries end up visited or still queued. -/
theorem cdgRun_inv {γ : Type _} (sn : List Nat) (g : Graph) (o : GrowOptions) :
    ∀ (N : Nat) (st : CdgState γ), CdgInv g st →
      CdgInv g (cdgRun sn g o N st) ∧
      (∀ x ∈ st.visited, x ∈ (cdgRun sn g o N st).visited) ∧
      (∀ x ∈ st.frontier,
        x ∈ (cdgRun sn g o N st).visited ∨ x ∈ (cdgRun sn g o N st).frontier) := by
  intro N
  induction N with
  | zero =>
    intro st hInv
    exact ⟨hInv, fun x hx => by rw [cdgRun]; exact hx,
      fun x hx => by rw [cdgRun]; exact Or.inr hx⟩
  | succ k ih =>
    intro st hInv
    rw [cdgRun]
    cases hm : st.frontier with
    | nil => exact ⟨hInv, fun x hx => hx, fun x hx => by simp at hx⟩
    | cons n rest =>
      obtain ⟨hInv', hvmono, hfro⟩ := cdgStep_inv sn g o n rest st hm hInv
      obtain ⟨hInv'', hvmono', hfro'⟩ :=
        ih (cdgStep sn g o n { st with frontier := rest }) hInv'
      refine ⟨hInv'', fun x hx => hvmono' x (hvmono x hx), fun x hx => ?_⟩
      rcases hfro x (by rw [hm]; exact hx) with h | h
      · exact Or.inl (hvmono' x h)
      · exact hfro' x h

/-- At completion (empty frontier) the visited list contains every node
reachable from the roots. -/
theorem cdgRun_reaches_visited {γ : Type _} (sn : List Nat) (g : Graph)
    (o : GrowOptions) (stats : Stats γ) (N : Nat)
    (hdone : (cdgRun sn g o N
      { frontier := sn, visited := [], edges := [], stats := stats }).frontier = []) :
    ∀ n, Reaches g sn n →
      n ∈ (cdgRun sn g o N
        { frontier := sn, visited := [], edges := [], stats := stats }).visited := by
  have hInv0 : CdgInv g
      ({ frontier := sn, visited := [], edges := [], stats := stats } : CdgState γ) := by
    constructor <;> intro m hm <;> simp at hm
  obtain ⟨hInv, _, hfro⟩ := cdgRun_inv sn g o N _ hInv0
  intro n hn
  induction hn with
  | root hr =>
    rcases hfro _ hr with h | h
    · exact h
    · rw [hdone] at h
      simp at h
  | step _ hnb ih =>
    rcases hInv.1 _ ih _ hnb with h | h
    · exact h
    · rw [hdone] at h
      simp at h

/-! ### Scalar and vector helpers

The code computes on Python floats; the model verifies the exact-real
semantics of the same expressions.  Positions are triples `ℝ × ℝ × ℝ`. -/

noncomputable section
open scoped Classical

abbrev Vec3 := ℝ × ℝ × ℝ

def square (x : ℝ) : ℝ := x * x

def distance_squared (v1 v2 : Vec3) : ℝ :=
  square (v1.1 - v2.1) + square (v1.2.1 - v2.2.1) + square (v1.2.2 - v2.2.2)

def vlength (vect : Vec3) : ℝ :=
  Real.sqrt (square vect.1 + square vect.2.1 + square vect.2.2)

def vmuls3 (v : Vec3) (x : ℝ) : Vec3 := (v.1 * x, v.2.1 * x, v.2.2 * x)

def vdivs3 (v : Vec3) (x : ℝ) : Vec3 := (v.1 / x, v.2.1 / x, v.2.2 / x)

def vadds3 (v : Vec3) (x : ℝ) : Vec3 := (v.1 + x, v.2.1 + x, v.2.2 + x)

def vsubs3 (v : Vec3) (x : ℝ) : Vec3 := (v.1 - x, v.2.1 - x, v.2.2 - x)

def vsub3 (v1 v2 : Vec3) : Vec3 :=
  (v1.1 - v2.1, v1.2.1 - v2.2.1, v1.2.2 - v2.2.2)

def vmin3 (v1 v2 : Vec3) : Vec3 :=
  (min v1.1 v2.1, min v1.2.1 v2.2.1, min v1.2.2 v2.2.2)

def vmax3 (v1 v2 : Vec3) : Vec3 :=
  (max v1.1 v2.1, max v1.2.1 v2.2.1, max v1.2.2 v2.2.2)

/-- `vnormalize3` (the source asserts `m != 0`; its only reachable call
site is guarded by `vnormalize_zero3`). -/
def vnormalize3 (v : Vec3) : Vec3 := vdivs3 v (vlength v)

def vnormalize_zero3 (v : Vec3) : Vec3 :=
  if vlength v ≠ 0 then vnormalize3 v else v

def v3_to_aabb (v1 v2 : Vec3) : Vec3 × Vec3 := (vmin3 v1 v2, vmax3 v1 v2)

def adjust_aabb (aabb : Vec3 × Vec3) (n : ℝ) : Vec3 × Vec3 :=
  v3_to_aabb (vsubs3 aabb.1 n) (vadds3 aabb.2 n)

/-- `inside_aabb`: strictly within all six faces. -/
def inside_aabb (aabb : Vec3 × Vec3) (v : Vec3) : Prop :=
  (aabb.1.1 < v.1 ∧ aabb.1.2.1 < v.2.1 ∧ aabb.1.2.2 < v.2.2) ∧
  (aabb.2.1 > v.1 ∧ aabb.2.2.1 > v.2.1 ∧ aabb.2.2.2 > v.2.2)

/-- `is_cut_point`: `False` when no AABB is configured, otherwise not
strictly inside the AABB. -/
def is_cut_point (pos : Vec3) (aabb : Option (Vec3 × Vec3)) : Bool :=
  match aabb with
  | none => false
  | some box => decide (¬ inside_aabb box pos)

/-- `vadjust_offset_length3`: recentre `v` on `centre` and clamp the
result to a minimum magnitude. -/
def vadjust_offset_length3 (v centre : Vec3) (min_length : ℝ) : Vec3 :=
  let nv := vsub3 v centre
  let m := vlength nv
  if m > min_length then nv else vmuls3 (vnormalize_zero3 nv) min_length

def debug_scale_cut_point_diameter (scaled_diameter scale : ℝ) : ℝ :=
  max (2 * scale) (scaled_diameter * 5)

/-! ### Morphology sink and growth state -/

/-- Sample point of a segment (`pt.position()`, `pt.diameter`). -/
structure SPoint where
  position : Vec3
  diameter : ℝ

/-- The BBPSDK morphology sink, as an event record.  Handles are `Nat`;
handle `0` is the soma.  `creations` records five-argument `grow` calls
(parent handle, fresh handle, position, diameter), `extensions` records
four-argument `grow` calls on an existing section. -/
structure Morph where
  nextHandle : Nat
  creations : List (Nat × Nat × Vec3 × ℝ)
  extensions : List (Nat × Vec3 × ℝ)
  cut_points : List Nat
  move_points : List (Nat × Nat × Vec3)
  surface_points : List Vec3

def somaHandle : Nat := 0

def emptyMorph : Morph :=
  { nextHandle := 1, creations := [], extensions := [], cut_points := [],
    move_points := [], surface_points := [] }

/-- `parent.grow(x, y, z, d, Section_Type.DENDRITE)`: a fresh section. -/
def morphGrowNew (m : Morph) (parent : Nat) (pos : Vec3) (diam : ℝ) :
    Nat × Morph :=
  (m.nextHandle,
    { m with
      nextHandle := m.nextHandle + 1
      creations := m.creations ++ [(parent, m.nextHandle, pos, diam)] })

/-- `section.grow(x, y, z, d)`: extend an existing section. -/
def morphExtend (m : Morph) (h : Nat) (pos : Vec3) (diam : ℝ) : Morph :=
  { m with extensions := m.extensions ++ [(h, pos, diam)] }

/-- `morphology.mark_cut_point(handle)`. -/
def morphMarkCut (m : Morph) (h : Nat) : Morph :=
  { m with cut_points := m.cut_points ++ [h] }

/-- `node.move_point(idx, pos)`. -/
def morphMovePoint (m : Morph) (h idx : Nat) (pos : Vec3) : Morph :=
  { m with move_points := m.move_points ++ [(h, idx, pos)] }

/-- `soma.surface_points().insert(pos)`. -/
def morphSurfaceInsert (m : Morph) (pos : Vec3) : Morph :=
  { m with surface_points := m.surface_points ++ [pos] }

/-- `d[k].append(x)` on a `defaultdict(list)` keyed by handles. -/
def dappend {β : Type _} (m : List (Nat × List β)) (k : Nat) (x : β) :
    List (Nat × List β) :=
  if keymem m k then
    m.map (fun kv => if kv.1 == k then (kv.1, kv.2 ++ [x]) else kv)
  else m ++ [(k, [x])]

/-- `stats.node_grow_stats[handle].append(v)` (a `defaultdict(list)`). -/
def statsGrowAppend (s : Stats Vec3) (h : Nat) (v : Vec3) : Stats Vec3 :=
  { s with node_grow_stats := dappend s.node_grow_stats h v }

def bumpMaxDepth (s : Stats Vec3) : Stats Vec3 :=
  { s with warn_max_grow_depth_reached := s.warn_max_grow_depth_reached + 1 }

def bumpCutFound (s : Stats Vec3) : Stats Vec3 :=
  { s with warn_cut_nodes_found := s.warn_cut_nodes_found + 1 }

def bumpIgnoredPos (s : Stats Vec3) : Stats Vec3 :=
  { s with info_ignored_positions := s.info_ignored_positions + 1 }

/-- `npos in nodes` on the grown-node table. -/
def nodesKeyMem (nodes : List (Vec3 × Nat)) (p : Vec3) : Prop :=
  p ∈ nodes.map Prod.fst

/-- `nodes[npos]` (first binding wins: Python-dict lookup on the
cons-based assignment model). -/
def nodesLookup (nodes : List (Vec3 × Nat)) (p : Vec3) : Option Nat :=
  match nodes with
  | [] => none
  | (q, h) :: t => if p = q then some h else nodesLookup t p

/-- Number of bindings a position has received in the grown-node table. -/
def nodesBindCount (nodes : List (Vec3 × Nat)) (p : Vec3) : Nat :=
  nodes.countP (fun e => decide (e.1 = p))

/-- Shared mutable state of the growth stage: the grown-node table, the
visited set, the morphology sink, the statistics, and the sticky
assertion-failure flag. -/
structure GrowState where
  nodes : List (Vec3 × Nat)
  visited : List Nat
  morph : Morph
  stats : Stats Vec3
  err : Bool

/-! ### Root growth stage (`grow_soma`) -/

/-- `debug_soma`: visual-debug artifacts grown when the logging level is
at or below DEBUG; it only creates extra sections (handle bookkeeping),
it never touches the grown-node table. -/
def debug_soma (m : Morph) (radius : ℝ) : Morph :=
  let m := (morphGrowNew m somaHandle (radius * 2, 0, 0) 0.1).2
  let nm := morphGrowNew m somaHandle (0, radius * 2, 0) 0.1
  let m := (morphGrowNew nm.2 nm.1 (1, radius * 2, 0) 0.1).2
  let nm2 := morphGrowNew m somaHandle (0, 0, radius * 2) 0.1
  let m := (morphGrowNew nm2.2 nm2.1 (0, 1, radius * 2) 0.1).2
  let m := (morphGrowNew m nm2.1 (1, 0, radius * 2) 0.1).2
  (List.range 25).foldl
    (fun m a =>
      let ang := (a : ℝ) * (360 / 25)
      let i := Real.sin ang * radius
      let j := Real.cos ang * radius
      let m := (morphGrowNew m somaHandle (i, j, 0) 0.1).2
      let m := (morphGrowNew m somaHandle (i, 0, j) 0.1).2
      (morphGrowNew m somaHandle (0, i, j) 0.1).2)
    m

/-- Loop body of `grow_soma` for one oriented segment of one soma node:
register the root sample either as a soma surface point (inflate mode) or
as a freshly grown section (non-inflate mode); either way `nodes[npos]`
is assigned. -/
def growSomaSegment (offsets : Vec3 × ℝ) (options : GrowOptions)
    (snode_idx : Nat) (s : GrowState) (segm : Segment SPoint) : GrowState :=
  if s.err then s
  else if segm.start ≠ snode_idx then { s with err := true }
  else
    match segm.points with
    | [] => { s with err := true }
    | ndata :: _ =>
      let scentre := offsets.1
      let sradius := offsets.2
      let scale := options.k_SCALING_FACTOR
      let npos := ndata.position
      let snpos := vadjust_offset_length3 npos scentre sradius
      if options.k_INFLATE_SOMA then
        let spos := vmuls3 snpos scale
        { s with
          morph := morphSurfaceInsert s.morph spos
          nodes := (npos, somaHandle) :: s.nodes }
      else
        let snpos := if options.log_level < 10 then
          vadjust_offset_length3 npos scentre 0 else snpos
        let spos := vmuls3 snpos scale
        let sdiameter := ndata.diameter * scale
        let nm := morphGrowNew s.morph somaHandle spos sdiameter
        { s with
          morph := morphMovePoint nm.2 nm.1 0 spos
          stats := statsGrowAppend s.stats somaHandle snpos
          nodes := (npos, nm.1) :: s.nodes }

/-- `grow_soma`: for every soma node, for every oriented segment starting
there, register the root sample (one `nodes` assignment per segment). -/
def grow_soma (somanodes : List Nat) (nodesegments : NodeSegments SPoint)
    (offsets : Vec3 × ℝ) (options : GrowOptions) (s : GrowState) : GrowState :=
  let s := if options.log_level ≤ 10 then
    { s with morph := debug_soma s.morph (offsets.2 * options.k_SCALING_FACTOR) }
    else s
  somanodes.foldl
    (fun s snode_idx =>
      (dget nodesegments snode_idx).foldl
        (growSomaSegment offsets options snode_idx) s)
    s

/-! ### Recursive growth stage (`grow_segments`) -/

/-- State of the interior-point walk of one segment: the current section
and previously grown position (when growth has started), the running cut
flag, and the sink/statistics being updated. -/
structure WalkState where
  sp : Option (Nat × Vec3)
  cut : Bool
  morph : Morph
  stats : Stats Vec3

/-- The walk over `segm.points[1:-1]` in `grow_segments`: transform each
point, start the section once the soma-clip test allows it, simplify
against the minimum-distance threshold, and stop at the first point found
outside the AABB (counting a cut node). -/
def walkInterior (options : GrowOptions) (offsets : Vec3 × ℝ) (node : Nat) :
    List SPoint → WalkState → WalkState
  | [], w => w
  | pt :: rest, w =>
    let scentre := offsets.1
    let sradius := offsets.2
    let scale := options.k_SCALING_FACTOR
    let pos := vadjust_offset_length3 pt.position scentre 0
    let spos := vmuls3 pos scale
    let sdiameter := pt.diameter * scale
    let is_cut := w.cut || is_cut_point pt.position options.k_CUTPOINT_AABB
    let sdiameter := if is_cut && decide (options.log_level ≤ 10) then
      debug_scale_cut_point_diameter sdiameter scale else sdiameter
    let w' :=
      match w.sp with
      | some sp =>
        if distance_squared pos sp.2 ≥ options.k_SEGMENT_THRESHOLD_SQR then
          let m := morphExtend w.morph sp.1 spos sdiameter
          let m := if is_cut then morphMarkCut m sp.1 else m
          { w with morph := m, sp := some (sp.1, pos), cut := is_cut }
        else
          { w with stats := bumpIgnoredPos w.stats, cut := is_cut }
      | none =>
        if options.k_CLIP_INSIDE_SOMA = false ∨
            vlength pos > sradius + pt.diameter then
          let nm := morphGrowNew w.morph node spos sdiameter
          { w with
            morph := nm.2
            stats := statsGrowAppend w.stats node pos
            sp := some (nm.1, pos)
            cut := is_cut }
        else { w with cut := is_cut }
    if is_cut then { w' with stats := bumpCutFound w'.stats }
    else walkInterior options offsets node rest w'

/-- End-node handling of one segment in `grow_segments` (the `# end node`
block): count the cut if the flag is set, determine the section to attach
to (reusing the start node's section when no interior point was grown and
the soma-clip test permits), and register the end position in the
grown-node table when it is not already grown. -/
def growSegEndNode (options : GrowOptions) (offsets : Vec3 × ℝ) (node : Nat)
    (ndataE : SPoint) (w : WalkState) (s : GrowState) : GrowState :=
  let scentre := offsets.1
  let sradius := offsets.2
  let scale := options.k_SCALING_FACTOR
  let nposE := ndataE.position
  let nposadj := vadjust_offset_length3 nposE scentre
    (max 0 (sradius - ndataE.diameter))
  let is_cut := w.cut || is_cut_point nposE options.k_CUTPOINT_AABB
  let stats1 := if is_cut then bumpCutFound w.stats else w.stats
  let sectionO : Option Nat :=
    match w.sp with
    | some sp => some sp.1
    | none =>
      if options.k_CLIP_INSIDE_SOMA = false ∨
          vlength nposadj ≥ sradius + ndataE.diameter then some node
      else none
  if nodesKeyMem s.nodes nposE then
    { s with morph := w.morph, stats := stats1 }
  else
    match sectionO with
    | some sec =>
      let sposE := vmuls3 nposadj scale
      let sdiamE := ndataE.diameter * scale
      let sdiamE := if is_cut && decide (options.log_level ≤ 10) then
        debug_scale_cut_point_diameter sdiamE scale else sdiamE
      let nm := morphGrowNew w.morph sec sposE sdiamE
      let m2 := if is_cut then morphMarkCut nm.2 nm.1 else nm.2
      { s with
          morph := m2
          stats := statsGrowAppend stats1 sec nposadj
          nodes := (nposE, nm.1) :: s.nodes }
    | none =>
      { s with
          morph := w.morph
          stats := stats1
          nodes := (nposE, node) :: s.nodes }

/-- Loop body of `grow_segments` for one oriented segment of the parent
node (`for segm in segments`).  The Boolean component is `is_parent_cut`:
once set, the remaining segments are skipped (`break`) and the caller
suppresses recursion into the children. -/
def growSegOne (options : GrowOptions) (offsets : Vec3 × ℝ)
    (pnode_idx : Nat) (acc : GrowState × Bool) (segm : Segment SPoint) :
    GrowState × Bool :=
  let s := acc.1
  if s.err then acc
  else if acc.2 then acc
  else if segm.start ≠ pnode_idx then ({ s with err := true }, acc.2)
  else if segm.points.length < 2 then acc
  else
    match segm.points with
    | [] => ({ s with err := true }, acc.2)
    | ndata :: _ =>
      let npos := ndata.position
      match nodesLookup s.nodes npos with
      | none => ({ s with err := true }, acc.2)
      | some node =>
        if is_cut_point npos options.k_CUTPOINT_AABB then (s, true)
        else
          let interior := (segm.points.drop 1).dropLast
          let w := walkInterior options offsets node interior
            { sp := none, cut := false, morph := s.morph, stats := s.stats }
          (growSegEndNode options offsets node
            ((segm.points.drop 1).getLastD ndata) w s, false)

/-- `grow_segments`: the recursive depth-first growth from one node.  The
`fuel` argument only bounds the modelled recursion depth (each productive
call visits a new node, so any fuel larger than the node count gives the
function's fixpoint); `depth` is the source's debugging depth budget. -/
def grow_segments (fuel : Nat) (dagnodes : Nat → List Nat)
    (nodesegments : NodeSegments SPoint) (offsets : Vec3 × ℝ)
    (options : GrowOptions) (pnode_idx : Nat) (depth : Int)
    (s : GrowState) : GrowState :=
  match fuel with
  | 0 => s
  | fuel + 1 =>
    if s.err then s
    else if depth = 0 then { s with stats := bumpMaxDepth s.stats }
    else if pnode_idx ∈ s.visited then s
    else
      let s1 : GrowState := { s with visited := s.visited ++ [pnode_idx] }
      let res := (dget nodesegments pnode_idx).foldl
        (growSegOne options offsets pnode_idx) (s1, false)
      if res.2 then res.1
      else
        (dagnodes pnode_idx).foldl
          (fun acc cn =>
            grow_segments fuel dagnodes nodesegments offsets options cn
              (if depth > 0 then depth - 1 else -1) acc)
          res.1

end

/-! ### Geometry lemmas -/

theorem square_nonneg (x : ℝ) : 0 ≤ square x := mul_self_nonneg x

theorem sumsq_nonneg (v : Vec3) :
    0 ≤ square v.1 + square v.2.1 + square v.2.2 :=
  add_nonneg (add_nonneg (square_nonneg _) (square_nonneg _)) (square_nonneg _)

theorem vlength_nonneg (v : Vec3) : 0 ≤ vlength v := Real.sqrt_nonneg _

theorem vlength_eq_zero_iff (v : Vec3) :
    vlength v = 0 ↔ v = (((0 : ℝ), (0 : ℝ), (0 : ℝ)) : Vec3) := by
  obtain ⟨x, y, z⟩ := v
  unfold vlength
  rw [Real.sqrt_eq_zero (sumsq_nonneg _)]
  constructor
  · intro h
    simp only [square] at h
    have hx : x = 0 := by nlinarith [mul_self_nonneg x, mul_self_nonneg y, mul_self_nonneg z]
    have hy : y = 0 := by nlinarith [mul_self_nonneg x, mul_self_nonneg y, mul_self_nonneg z]
    have hz : z = 0 := by nlinarith [mul_self_nonneg x, mul_self_nonneg y, mul_self_nonneg z]
    simp [hx, hy, hz]
  · intro h
    simp only [Prod.mk.injEq] at h
    obtain ⟨rfl, rfl, rfl⟩ := h
    simp [square]

theorem vlength_vmuls3 (v : Vec3) (a : ℝ) :
    vlength (vmuls3 v a) = |a| * vlength v := by
  obtain ⟨x, y, z⟩ := v
  show Real.sqrt (square (x * a) + square (y * a) + square (z * a)) = _
  have h : square (x * a) + square (y * a) + square (z * a) =
      a ^ 2 * (square x + square y + square z) := by
    simp only [square]
    ring
  rw [h, Real.sqrt_mul (sq_nonneg a), Real.sqrt_sq_eq_abs]
  rfl

theorem vdivs3_eq_vmuls3 (v : Vec3) (x : ℝ) : vdivs3 v x = vmuls3 v x⁻¹ := by
  simp [vdivs3, vmuls3, div_eq_mul_inv]

theorem vmuls3_vmuls3 (v : Vec3) (a b : ℝ) :
    vmuls3 (vmuls3 v a) b = vmuls3 v (a * b) := by
  simp [vmuls3, mul_assoc]

/-- With a zero minimum length the offset is the plain recentred vector:
the clamp branch can only be taken when the vector already is zero. -/
theorem vadjust_zero (v c : Vec3) : vadjust_offset_length3 v c 0 = vsub3 v c := by
  unfold vadjust_offset_length3
  dsimp only
  split
  · rfl
  · next h =>
    have h0 : vlength (vsub3 v c) = 0 :=
      le_antisymm (not_lt.mp h) (vlength_nonneg _)
    have hz := (vlength_eq_zero_iff _).mp h0
    rw [hz]
    simp [vnormalize_zero3, vmuls3]

/-! ### Association-list lemmas for the oriented-segment map -/

theorem dget_append {β : Type _} (m m' : List (Nat × List β)) (q : Nat) :
    dget (m ++ m') q = if keymem m q then dget m q else dget m' q := by
  induction m with
  | nil => simp [keymem, dget]
  | cons kv t ih =>
    obtain ⟨a, v⟩ := kv
    by_cases hq : q = a
    · simp [dget, keymem, hq]
    · rw [List.cons_append, dget, if_neg hq, dget, if_neg hq, ih]
      have : keymem ((a, v) :: t) q = keymem t q := by
        simp [keymem, List.any_cons, Ne.symm hq]
      rw [this]

theorem dget_eq_nil_of_not_keymem {β : Type _} {m : List (Nat × List β)}
    {q : Nat} (h : keymem m q = false) : dget m q = [] := by
  induction m with
  | nil => rfl
  | cons kv t ih =>
    simp only [keymem, List.any_cons, Bool.or_eq_false_iff] at h
    have hne : q ≠ kv.1 := fun hq => by simp [hq] at h
    rw [dget, if_neg hne]
    exact ih (by simpa [keymem] using h.2)

theorem dget_map_append_ne {α : Type _} (m : NodeSegments α) (k : Nat)
    (seg : Segment α) (q : Nat) (hq : q ≠ k) :
    dget (m.map (fun kv => if kv.1 == k then (kv.1, kv.2 ++ [seg]) else kv)) q =
      dget m q := by
  induction m with
  | nil => rfl
  | cons kv t ih =>
    obtain ⟨a, v⟩ := kv
    simp only [List.map_cons]
    by_cases hak : a = k
    · rw [show (if ((a : Nat) == k) = true then (a, v ++ [seg]) else (a, v)) =
          (a, v ++ [seg]) from by simp [hak]]
      rw [dget, dget]
      by_cases hqa : q = a
      · exact absurd (hqa.trans hak) hq
      · rw [if_neg hqa, if_neg hqa]
        exact ih
    · rw [show (if ((a : Nat) == k) = true then (a, v ++ [seg]) else (a, v)) =
          (a, v) from by simp [hak]]
      rw [dget, dget]
      by_cases hqa : q = a
      · rw [if_pos hqa, if_pos hqa]
      · rw [if_neg hqa, if_neg hqa]
        exact ih


theorem dget_map_append_self {α : Type _} (m : NodeSegments α) (k : Nat)
    (seg : Segment α) (hkm : keymem m k = true) :
    dget (m.map (fun kv => if kv.1 == k then (kv.1, kv.2 ++ [seg]) else kv)) k =
      dget m k ++ [seg] := by
  induction m with
  | nil => simp [keymem] at hkm
  | cons kv t ih =>
    obtain ⟨a, v⟩ := kv
    simp only [List.map_cons]
    by_cases hak : a = k
    · rw [show (if ((a : Nat) == k) = true then (a, v ++ [seg]) else (a, v)) =
          (a, v ++ [seg]) from by simp [hak]]
      rw [dget, dget, if_pos hak.symm, if_pos hak.symm]
    · rw [show (if ((a : Nat) == k) = true then (a, v ++ [seg]) else (a, v)) =
          (a, v) from by simp [hak]]
      have hka : ¬ k = a := fun h => hak h.symm
      rw [dget, dget, if_neg hka, if_neg hka]
      refine ih ?_
      simp only [keymem, List.any_cons, Bool.or_eq_true] at hkm
      rcases hkm with h | h
      · exact absurd (by simpa using h) hak
      · simpa [keymem] using h

/-- Effect of one `defaultdict` append on every key of the map. -/
theorem dget_nsAppend {α : Type _} (m : NodeSegments α) (k : Nat)
    (seg : Segment α) (q : Nat) :
    dget (nsAppend m k seg) q = dget m q ++ (if q = k then [seg] else []) := by
  unfold nsAppend
  split
  · next hkm =>
    by_cases hq : q = k
    · subst hq
      rw [if_pos rfl]
      exact dget_map_append_self m q seg hkm
    · rw [dget_map_append_ne m k seg q hq, if_neg hq, List.append_nil]
  · next hkm =>
    have hkm' : keymem m k = false := by
      revert hkm
      cases keymem m k <;> simp
    rw [dget_append]
    by_cases hq : q = k
    · subst hq
      rw [if_neg (by rw [hkm']; simp), dget_eq_nil_of_not_keymem hkm',
        if_pos rfl, dget, if_pos rfl]
      rfl
    · rw [if_neg hq, List.append_nil]
      split
      · rfl
      · next hqm =>
        have hqm' : keymem m q = false := by
          revert hqm
          cases keymem m q <;> simp
        rw [dget_eq_nil_of_not_keymem hqm', dget, if_neg hq]
        rfl

/-! ## Claim theorems -/

/-- C10: `is_cut_point` returns True iff an AABB is configured and the
position is not strictly inside it — a position lying exactly on any face
of the AABB is classified as a cut point, and with no AABB configured
(`None`) the result is False for every position. -/
theorem C10_is_cut_point_boundary :
    (∀ pos : Vec3, is_cut_point pos none = false) ∧
    (∀ (box : Vec3 × Vec3) (pos : Vec3),
      (is_cut_point pos (some box) = true ↔ ¬ inside_aabb box pos)) ∧
    (∀ (box : Vec3 × Vec3) (pos : Vec3),
      pos.1 = box.1.1 ∨ pos.2.1 = box.1.2.1 ∨ pos.2.2 = box.1.2.2 ∨
        pos.1 = box.2.1 ∨ pos.2.1 = box.2.2.1 ∨ pos.2.2 = box.2.2.2 →
      is_cut_point pos (some box) = true) := by
  refine ⟨fun pos => rfl, fun box pos => by simp [is_cut_point], ?_⟩
  intro box pos h
  simp only [is_cut_point, decide_eq_true_eq]
  intro hins
  obtain ⟨⟨hl1, hl2, hl3⟩, hr1, hr2, hr3⟩ := hins
  rcases h with h | h | h | h | h | h
  · rw [h] at hl1; exact lt_irrefl _ hl1
  · rw [h] at hl2; exact lt_irrefl _ hl2
  · rw [h] at hl3; exact lt_irrefl _ hl3
  · rw [h] at hr1; exact lt_irrefl _ hr1
  · rw [h] at hr2; exact lt_irrefl _ hr2
  · rw [h] at hr3; exact lt_irrefl _ hr3

theorem C10_witness :
    is_cut_point (((0 : ℝ), 5, 5) : Vec3)
      (some ((((0 : ℝ), (0 : ℝ), (0 : ℝ)) : Vec3),
             (((10 : ℝ), (10 : ℝ), (10 : ℝ)) : Vec3))) = true :=
  C10_is_cut_point_boundary.2.2 _ _ (Or.inl rfl)

/-- C8 counterexample: when the raw position equals the soma centre
exactly, the offset vector collapses to the zero vector
(`vnormalize_zero3` of the zero vector is the zero vector), so its
magnitude is `0`, strictly below the soma radius `5` — refuting the claim
that the offset never collapses to the origin. -/
theorem C8_counterexample :
    vadjust_offset_length3 (((0 : ℝ), 0, 0) : Vec3) (((0 : ℝ), 0, 0) : Vec3) 5 =
      (((0 : ℝ), 0, 0) : Vec3) ∧
    vlength (vadjust_offset_length3 (((0 : ℝ), 0, 0) : Vec3)
      (((0 : ℝ), 0, 0) : Vec3) 5) < 5 := by
  have hsub : vsub3 (((0 : ℝ), 0, 0) : Vec3) (((0 : ℝ), 0, 0) : Vec3) =
      (((0 : ℝ), 0, 0) : Vec3) := by
    simp [vsub3]
  have hlen : vlength (((0 : ℝ), 0, 0) : Vec3) = 0 := by
    simp [vlength, square]
  have heq : vadjust_offset_length3 (((0 : ℝ), 0, 0) : Vec3)
      (((0 : ℝ), 0, 0) : Vec3) 5 = (((0 : ℝ), 0, 0) : Vec3) := by
    unfold vadjust_offset_length3
    dsimp only
    rw [hsub, if_neg (by rw [hlen]; norm_num)]
    rw [vnormalize_zero3, if_neg (by rw [hlen]; simp)]
    simp [vmuls3]
  exact ⟨heq, by rw [heq, hlen]; norm_num⟩

/-- C8 amended: whenever the root's raw position differs from the soma
centre (and the radius is nonnegative), the offset vector computed by
`vadjust_offset_length3` has magnitude at least the soma radius; at the
centre itself it degenerates to the zero vector (see the
counterexample). -/
theorem C8_offset_clamped (v c : Vec3) (r : ℝ) (hr : 0 ≤ r) (hvc : v ≠ c) :
    r ≤ vlength (vadjust_offset_length3 v c r) := by
  have hnv : vsub3 v c ≠ (((0 : ℝ), 0, 0) : Vec3) := by
    intro h
    apply hvc
    obtain ⟨x, y, z⟩ := v
    obtain ⟨a, b, d⟩ := c
    simp only [vsub3, Prod.mk.injEq] at h
    obtain ⟨h1, h2, h3⟩ := h
    simp only [Prod.mk.injEq]
    exact ⟨sub_eq_zero.mp h1, sub_eq_zero.mp h2, sub_eq_zero.mp h3⟩
  have hm0 : vlength (vsub3 v c) ≠ 0 :=
    fun h => hnv ((vlength_eq_zero_iff _).mp h)
  unfold vadjust_offset_length3
  dsimp only
  split
  · next h => exact le_of_lt h
  · next h =>
    rw [vnormalize_zero3, if_pos hm0]
    unfold vnormalize3
    rw [vdivs3_eq_vmuls3, vmuls3_vmuls3, vlength_vmuls3]
    rw [abs_mul, abs_inv, abs_of_nonneg (vlength_nonneg _), abs_of_nonneg hr]
    rw [mul_comm (vlength (vsub3 v c))⁻¹ r, mul_assoc,
      inv_mul_cancel₀ hm0, mul_one]

theorem C8_witness :
    (0 : ℝ) ≤ 2 ∧ (((3 : ℝ), 0, 0) : Vec3) ≠ (((0 : ℝ), 0, 0) : Vec3) ∧
    (2 : ℝ) ≤ vlength (vadjust_offset_length3 (((3 : ℝ), 0, 0) : Vec3)
      (((0 : ℝ), 0, 0) : Vec3) 2) :=
  ⟨by norm_num, by simp, C8_offset_clamped _ _ _ (by norm_num) (by simp)⟩

/-- C6: for every segment `s` with raw endpoints `(a, b)` and every
directed graph, the `create_node_segments_dict` loop body appends `s`
unchanged to `map[a]` iff the DAG contains edge `a→b`, independently
appends the point-reversed copy to `map[b]` iff the DAG contains edge
`b→a` (both can fire for the same segment), and increments the
unconnected-segment counter by exactly one — contributing no map entry —
iff neither edge exists. -/
theorem C6_segment_orientation {α γ : Type _} (dg : Graph)
    (m : NodeSegments α) (stats : Stats γ) (s : Segment α) :
    (∀ q : Nat,
      dget (nodeSegmentsStep dg (m, stats) s).1 q =
        dget m q
          ++ (if q = s.start ∧ dgraphHasEdge dg s.start s.end_ = true
              then [s] else [])
          ++ (if q = s.end_ ∧ dgraphHasEdge dg s.end_ s.start = true
              then [seg_reversed s] else [])) ∧
    (nodeSegmentsStep dg (m, stats) s).2.warn_unconnected_segments =
      stats.warn_unconnected_segments +
        (if dgraphHasEdge dg s.start s.end_ = false ∧
            dgraphHasEdge dg s.end_ s.start = false
         then 1 else 0) := by
  unfold nodeSegmentsStep
  dsimp only
  cases hc1 : dgraphHasEdge dg s.start s.end_ <;>
    cases hc2 : dgraphHasEdge dg s.end_ s.start <;>
    exact ⟨fun q => by simp [dget_nsAppend], by simp⟩

/-- The default option set of `create_morphology` at the default verbosity
(INFO = 20): cycles disallowed, soma-soma edges disallowed, threshold 0,
soma clipping and soma inflation on, scale 1, no AABB. -/
def optsDefault : GrowOptions :=
  { k_ALLOW_CYCLES := false
    k_CONNECT_SOMA_SOMA := false
    k_SEGMENT_THRESHOLD_SQR := 0
    k_CLIP_INSIDE_SOMA := true
    k_INFLATE_SOMA := true
    k_SCALING_FACTOR := 1
    k_CUTPOINT_AABB := none
    log_level := 20 }

/-- C5 counterexample: a DAG node (id 5) with children `[1]`, all of them
roots, and no oriented-segment entry.  Under the disallowed-root-to-root
configuration `create_morphology` passes `None` for `somanodes`, so the
claimed exception cannot apply and validation fails; and even when the
root list is passed explicitly, the child-endpoint check still fails on
the empty default entry — the claim's "no failure is raised" is false
either way. -/
theorem C5_counterexample :
    create_morphology_validator_somanodes optsDefault [1] = none ∧
    validate_graph_segments ([((5 : Nat), [(1 : Nat)])] : Graph)
      ([] : NodeSegments Unit) (create_morphology_validator_somanodes optsDefault [1]) = false ∧
    validate_graph_segments ([((5 : Nat), [(1 : Nat)])] : Graph)
      ([] : NodeSegments Unit) (some [1]) = false :=
  ⟨rfl, rfl, rfl⟩

/-- C5 amended: `validate_graph_segments` raises a validation failure
whenever a DAG node has children but no entry in the oriented-segment
map, whatever `somanodes` is passed: the somanodes clause only exempts
the first membership check, after which the child-endpoint check reads
the empty default entry and fails.  Moreover `create_morphology` passes
the somanodes list exactly when root-to-root edges are allowed
(`k_CONNECT_SOMA_SOMA`), passing `None` under the disallowed
configuration. -/
theorem C5_validator_failure {α : Type _} (dg : Graph) (ns : NodeSegments α)
    (so : Option (List Nat)) (nidx : Nat) (cn : List Nat)
    (hmem : (nidx, cn) ∈ dg) (hcn : cn ≠ [])
    (hns : keymem ns nidx = false) :
    validate_graph_segments dg ns so = false ∧
    (∀ (options : GrowOptions) (roots : List Nat),
      options.k_CONNECT_SOMA_SOMA = false →
      create_morphology_validator_somanodes options roots = none) := by
  constructor
  · rcases Bool.eq_false_or_eq_true (validate_graph_segments dg ns so) with h | h
    · exfalso
      unfold validate_graph_segments at h
      rw [Bool.and_eq_true] at h
      have h1 := h.1
      rw [List.all_eq_true] at h1
      have hnode := h1 (nidx, cn) hmem
      rw [Bool.and_eq_true] at hnode
      have h2 := hnode.2
      rw [List.all_eq_true] at h2
      obtain ⟨c, hc⟩ := List.exists_mem_of_ne_nil cn hcn
      have := h2 c hc
      rw [show dget ns (nidx, cn).1 = [] from dget_eq_nil_of_not_keymem hns] at this
      simp at this
    · exact h
  · intro options roots hco
    unfold create_morphology_validator_somanodes
    rw [hco]
    simp

theorem C5_witness :
    validate_graph_segments ([((5 : Nat), [(1 : Nat)])] : Graph)
      ([] : NodeSegments Unit) (some [1]) = false :=
  (C5_validator_failure ([((5 : Nat), [(1 : Nat)])] : Graph) [] (some [1]) 5 [1]
    (List.mem_singleton.mpr rfl) (by simp) rfl).1

/-- Evaluating `create_directed_graph` through its fuel-indexed iteration:
any fuel that empties the worklist computes the function's value. -/
theorem create_directed_graph_eval {γ : Type _} (sn : List Nat) (g : Graph)
    (o : GrowOptions) (stats : Stats γ) (N : Nat)
    (h : (cdgRun sn g o N
      { frontier := sn, visited := [], edges := [], stats := stats }).frontier = []) :
    create_directed_graph sn g o stats =
      ((cdgRun sn g o N
        { frontier := sn, visited := [], edges := [], stats := stats }).edges,
       (cdgRun sn g o N
        { frontier := sn, visited := [], edges := [], stats := stats }).stats) := by
  unfold create_directed_graph
  rw [cdgGo_eq_cdgRun sn g o (univOf g sn) (fun _ _ hx => dget_mem_univOf hx) N
    { frontier := sn, visited := [], edges := [], stats := stats }
    (fun _ hx => roots_mem_univOf hx) h]

/-- Scenario A inputs: the 4-node path graph with segments 1-2, 2-3, 3-4. -/
def c3segments : List (Segment Unit) :=
  [{ start := 1, end_ := 2, points := [] },
   { start := 2, end_ := 3, points := [] },
   { start := 3, end_ := 4, points := [] }]

def c3graph : Graph := create_node_graph c3segments

/-- C3 counterexample: on the 4-node path with root `{1}`, cycles
disallowed and threshold 0, the run is not warning-free — the
ignored-edge counter ends at 3 (each back-edge into an already-visited or
root node is rejected and counted: 2→1, 3→2, 4→3). -/
theorem C3_counterexample :
    (create_node_segments_dict c3segments
      (create_directed_graph [1] c3graph optsDefault ({} : Stats Unit)).1
      (create_directed_graph [1] c3graph optsDefault ({} : Stats Unit)).2).2.warn_ignored_edges
      = 3 := by
  rw [create_directed_graph_eval [1] c3graph optsDefault ({} : Stats Unit) 9 (by decide)]
  decide

/-- C3 amended: on the 4-node path graph with root `{1}`, cycles
disallowed and threshold 0, `create_directed_graph` produces exactly the
DAG `{1:{2}, 2:{3}, 3:{4}, 4:{}}`, `create_node_segments_dict` marks every
segment connected (the unconnected-segment counter stays 0 and each
segment is oriented under its start node), but the ignored-edge counter
ends at 3 rather than 0. -/
theorem C3_scenario_A :
    (create_directed_graph [1] c3graph optsDefault ({} : Stats Unit)).1 =
      [(1, [2]), (2, [3]), (3, [4]), (4, [])] ∧
    (create_node_segments_dict c3segments
      (create_directed_graph [1] c3graph optsDefault ({} : Stats Unit)).1
      (create_directed_graph [1] c3graph optsDefault ({} : Stats Unit)).2).1 =
      [(1, [{ start := 1, end_ := 2, points := [] }]),
       (2, [{ start := 2, end_ := 3, points := [] }]),
       (3, [{ start := 3, end_ := 4, points := [] }])] ∧
    (create_node_segments_dict c3segments
      (create_directed_graph [1] c3graph optsDefault ({} : Stats Unit)).1
      (create_directed_graph [1] c3graph optsDefault ({} : Stats Unit)).2).2.warn_unconnected_segments
      = 0 ∧
    (create_node_segments_dict c3segments
      (create_directed_graph [1] c3graph optsDefault ({} : Stats Unit)).1
      (create_directed_graph [1] c3graph optsDefault ({} : Stats Unit)).2).2.warn_ignored_edges
      = 3 := by
  rw [create_directed_graph_eval [1] c3graph optsDefault ({} : Stats Unit) 9 (by decide)]
  refine ⟨by decide, by decide, by decide, by decide⟩

/-- C2 counterexample inputs: the diamond graph 1-2, 1-3, 2-4, 3-4 with
root `{1}` — node 4 gets two worklist entries (pushed by 2 and by 3). -/
def c2graph : Graph :=
  create_node_graph
    ([{ start := 1, end_ := 2, points := [] },
      { start := 1, end_ := 3, points := [] },
      { start := 2, end_ := 4, points := [] },
      { start := 3, end_ := 4, points := [] }] : List (Segment Unit))

def c2init : CdgState Unit :=
  { frontier := [1], visited := [], edges := [], stats := {} }

/-- C2 counterexample: on the diamond graph the worklist holds node 4
twice; node 4 is appended to the visited list twice (not exactly once),
and the second (duplicate) pop re-counts its rejected edges, so the
ignored-edge statistic is 6 while the deduplicated traversal counts 4 —
deduplication changes the statistic (the DAG happens to agree). -/
theorem C2_counterexample :
    (create_directed_graph [1] c2graph optsDefault ({} : Stats Unit)).2.warn_ignored_edges = 6 ∧
    (cdgRun [1] c2graph optsDefault 9 c2init).visited.count 4 = 2 ∧
    (cdgRun [1] c2graph optsDefault 9 c2init).frontier = [] ∧
    (cdgDedupRun [1] c2graph optsDefault 9 c2init).frontier = [] ∧
    (cdgDedupRun [1] c2graph optsDefault 9 c2init).stats.warn_ignored_edges = 4 ∧
    (cdgDedupRun [1] c2graph optsDefault 9 c2init).edges =
      (cdgRun [1] c2graph optsDefault 9 c2init).edges := by
  refine ⟨?_, by decide, by decide, by decide, by decide, by decide⟩
  rw [create_directed_graph_eval [1] c2graph optsDefault ({} : Stats Unit) 9 (by decide)]
  decide

/-- C2 amended: in `create_directed_graph`'s multi-source traversal a node
is appended to the visited list once per worklist entry popped — possibly
more than once (see the counterexample), with the ignored-edge statistic
re-counted on duplicate pops, so worklist deduplication can change that
statistic.  What does hold: every node reachable from the roots is
appended to the visited list at least once, the worklist loop terminates
(some finite fuel empties it), and `create_directed_graph` is the value of
that terminated run. -/
theorem C2_worklist_termination {γ : Type _} (sn : List Nat) (g : Graph)
    (o : GrowOptions) (stats : Stats γ) :
    ∃ N,
      (cdgRun sn g o N
        { frontier := sn, visited := [], edges := [], stats := stats }).frontier = [] ∧
      create_directed_graph sn g o stats =
        ((cdgRun sn g o N
          { frontier := sn, visited := [], edges := [], stats := stats }).edges,
         (cdgRun sn g o N
          { frontier := sn, visited := [], edges := [], stats := stats }).stats) ∧
      ∀ n, Reaches g sn n →
        n ∈ (cdgRun sn g o N
          { frontier := sn, visited := [], edges := [], stats := stats }).visited := by
  obtain ⟨N, hN⟩ := cdgRun_completes sn g o (univOf g sn)
    (fun _ _ hx => dget_mem_univOf hx) _ _
    { frontier := sn, visited := [], edges := [], stats := stats }
    (fun _ hx => roots_mem_univOf hx) rfl rfl
  exact ⟨N, hN, create_directed_graph_eval sn g o stats N hN,
    cdgRun_reaches_visited sn g o stats N hN⟩

/-- C7: reachability preservation — every node reachable in the
undirected graph from some root node appears as a key of the directed
graph returned by `create_directed_graph` (leaves getting an empty child
set). -/
theorem C7_reachability {γ : Type _} (sn : List Nat) (g : Graph)
    (o : GrowOptions) (stats : Stats γ) (n : Nat) (hn : Reaches g sn n) :
    keymem (create_directed_graph sn g o stats).1 n = true := by
  obtain ⟨N, hN⟩ := cdgRun_completes sn g o (univOf g sn)
    (fun _ _ hx => dget_mem_univOf hx) _ _
    { frontier := sn, visited := [], edges := [], stats := stats }
    (fun _ hx => roots_mem_univOf hx) rfl rfl
  have hvis := cdgRun_reaches_visited sn g o stats N hN n hn
  have hInv0 : CdgInv g
      ({ frontier := sn, visited := [], edges := [], stats := stats } : CdgState γ) := by
    constructor <;> intro m hm <;> simp at hm
  obtain ⟨hInv, -, -⟩ := cdgRun_inv sn g o N
    { frontier := sn, visited := [], edges := [], stats := stats } hInv0
  rw [create_directed_graph_eval sn g o stats N hN]
  exact hInv.2 n hvis

theorem C7_witness :
    Reaches c3graph [1] 4 ∧
    keymem (create_directed_graph [1] c3graph optsDefault ({} : Stats Unit)).1 4 = true := by
  have h1 : Reaches c3graph [1] 1 := Reaches.root (List.mem_singleton.mpr rfl)
  have h2 : Reaches c3graph [1] 2 := Reaches.step h1 (by decide)
  have h3 : Reaches c3graph [1] 3 := Reaches.step h2 (by decide)
  have hr : Reaches c3graph [1] 4 := Reaches.step h3 (by decide)
  exact ⟨hr, C7_reachability [1] c3graph optsDefault ({} : Stats Unit) 4 hr⟩

/-! ### Interior-walk counting (for the simplification claims) -/

/-- Number of interior points grown during a walk: section creations plus
section extensions recorded on the sink. -/
def walkGrownCount (w : WalkState) : Nat :=
  w.morph.creations.length + w.morph.extensions.length

theorem distance_squared_nonneg (a b : Vec3) : 0 ≤ distance_squared a b :=
  add_nonneg (add_nonneg (square_nonneg _) (square_nonneg _)) (square_nonneg _)

noncomputable section
open scoped Classical

/-- Options for the interior-walk runs: threshold `t`, soma clipping off,
no AABB. -/
def c9opts (t : ℝ) : GrowOptions :=
  { k_ALLOW_CYCLES := false
    k_CONNECT_SOMA_SOMA := false
    k_SEGMENT_THRESHOLD_SQR := t
    k_CLIP_INSIDE_SOMA := false
    k_INFLATE_SOMA := true
    k_SCALING_FACTOR := 1
    k_CUTPOINT_AABB := none
    log_level := 20 }

/-- C9 counterexample interior samples: collinear points at x-coordinates
0, 10, 18.5, 0.4. -/
def c9pts : List SPoint :=
  [{ position := ((0 : ℝ), 0, 0), diameter := 0 },
   { position := ((10 : ℝ), 0, 0), diameter := 0 },
   { position := ((18.5 : ℝ), 0, 0), diameter := 0 },
   { position := ((0.4 : ℝ), 0, 0), diameter := 0 }]

def c9w0 : WalkState :=
  { sp := none, cut := false, morph := emptyMorph, stats := {} }

end

theorem vsub3_zero (v : Vec3) : vsub3 v (((0 : ℝ), 0, 0) : Vec3) = v := by
  obtain ⟨x, y, z⟩ := v
  simp [vsub3]

/-- C9 counterexample: with thresholds `T1 = 100 ≤ T2 = 324` on the same
segment interior, the larger threshold grows three interior points while
the smaller grows two — simplification is not monotone in the threshold.
With `T1`, the anchors are 0 and 10 (18.5 and 0.4 fall within distance
10 of the last anchor); with `T2`, the anchor moves to 18.5, from which
0.4 is again far enough. -/
theorem C9_counterexample :
    walkGrownCount (walkInterior (c9opts 324) (((0 : ℝ), 0, 0), 0) 1 c9pts c9w0) = 3 ∧
    walkGrownCount (walkInterior (c9opts 100) (((0 : ℝ), 0, 0), 0) 1 c9pts c9w0) = 2 := by
  constructor <;>
    norm_num [walkInterior, walkGrownCount, vadjust_zero, vsub3, vmuls3, c9pts,
      c9w0, c9opts, is_cut_point, distance_squared, square, morphGrowNew,
      morphExtend, statsGrowAppend, bumpIgnoredPos, bumpCutFound, emptyMorph]

/-- C9 amended: general monotonicity in the threshold fails (see the
counterexample); what holds is the comparison against threshold 0, which
grows every interior sample reached: for any threshold, the interior walk
grows at most as many points as the same walk with threshold 0.  The two
runs are compared from any pair of starting states that agree on the cut
flag and on whether a section has been started, the threshold run having
grown at most as many points. -/
theorem C9_threshold_zero_bound (o : GrowOptions) (off : Vec3 × ℝ)
    (node : Nat) :
    ∀ (pts : List SPoint) (w1 w2 : WalkState),
      w1.cut = w2.cut → (w1.sp = none ↔ w2.sp = none) →
      walkGrownCount w1 ≤ walkGrownCount w2 →
      walkGrownCount (walkInterior o off node pts w1) ≤
        walkGrownCount (walkInterior
          { o with k_SEGMENT_THRESHOLD_SQR := 0 } off node pts w2) := by
  intro pts
  induction pts with
  | nil =>
    intro w1 w2 _ _ hc
    simpa [walkInterior] using hc
  | cons pt rest ih =>
    intro w1 w2 hcut hsp hcount
    simp only [walkGrownCount] at hcount
    rw [walkInterior, walkInterior]
    dsimp only
    rw [hcut]
    cases hw1 : w1.sp with
    | none =>
      have hw2 : w2.sp = none := hsp.mp hw1
      rw [hw2]
      dsimp only
      by_cases hcl : o.k_CLIP_INSIDE_SOMA = false ∨
          vlength (vadjust_offset_length3 pt.position off.1 0) >
            off.2 + pt.diameter
      · rw [if_pos hcl, if_pos hcl]
        cases hic : (w2.cut || is_cut_point pt.position o.k_CUTPOINT_AABB)
        · refine ih _ _ rfl (by simp) ?_
          simp [walkGrownCount, morphGrowNew]
          omega
        · simp [walkGrownCount, morphGrowNew]
          omega
      · rw [if_neg hcl, if_neg hcl]
        cases hic : (w2.cut || is_cut_point pt.position o.k_CUTPOINT_AABB)
        · refine ih _ _ rfl (by simp) ?_
          simp [walkGrownCount]
          omega
        · simp [walkGrownCount]
          omega
    | some sp1 =>
      obtain ⟨sp2, hw2⟩ : ∃ sp2, w2.sp = some sp2 := by
        cases hv : w2.sp with
        | none => exact absurd (hsp.mpr hv) (by simp [hw1])
        | some sp2 => exact ⟨sp2, rfl⟩
      rw [hw2]
      dsimp only
      rw [if_pos (show distance_squared (vadjust_offset_length3 pt.position off.1 0) sp2.2 ≥ 0
        from distance_squared_nonneg _ _)]
      by_cases hd : distance_squared (vadjust_offset_length3 pt.position off.1 0) sp1.2 ≥
          o.k_SEGMENT_THRESHOLD_SQR
      · rw [if_pos hd]
        cases hic : (w2.cut || is_cut_point pt.position o.k_CUTPOINT_AABB)
        · refine ih _ _ rfl (by simp) ?_
          simp [walkGrownCount, morphExtend, morphMarkCut]
          omega
        · simp [walkGrownCount, morphExtend, morphMarkCut]
          omega
      · rw [if_neg hd]
        cases hic : (w2.cut || is_cut_point pt.position o.k_CUTPOINT_AABB)
        · refine ih _ _ rfl (by simp) ?_
          simp [walkGrownCount, morphExtend, morphMarkCut, bumpIgnoredPos]
          omega
        · simp [walkGrownCount, morphExtend, morphMarkCut, bumpIgnoredPos]
          omega

theorem C9_witness :
    walkGrownCount (walkInterior (c9opts 324) (((0 : ℝ), 0, 0), 0) 1 c9pts c9w0) ≤
      walkGrownCount (walkInterior
        { c9opts 324 with k_SEGMENT_THRESHOLD_SQR := 0 }
        (((0 : ℝ), 0, 0), 0) 1 c9pts c9w0) :=
  C9_threshold_zero_bound (c9opts 324) (((0 : ℝ), 0, 0), 0) 1 c9pts c9w0 c9w0
    rfl Iff.rfl (le_refl _)

/-! ### Single-growth bookkeeping for the grown-node table -/

/-- `NodesExtend a b`: table `b` extends table `a` without rebinding —
every position already bound in `a` keeps its exact binding count, and a
position unbound in `a` gains at most one binding. -/
def NodesExtend (a b : List (Vec3 × Nat)) : Prop :=
  (∀ q : Vec3, nodesKeyMem a q → nodesBindCount b q = nodesBindCount a q) ∧
  (∀ q : Vec3, ¬ nodesKeyMem a q → nodesBindCount b q ≤ 1)

theorem nodesKeyMem_iff_bindCount_pos (l : List (Vec3 × Nat)) (q : Vec3) :
    nodesKeyMem l q ↔ 0 < nodesBindCount l q := by
  unfold nodesKeyMem nodesBindCount
  rw [List.countP_pos_iff]
  simp only [List.mem_map, decide_eq_true_eq]

theorem bindCount_eq_zero_of_not_keymem {l : List (Vec3 × Nat)} {q : Vec3}
    (h : ¬ nodesKeyMem l q) : nodesBindCount l q = 0 := by
  rw [nodesKeyMem_iff_bindCount_pos] at h
  omega

theorem NodesExtend_refl (a : List (Vec3 × Nat)) : NodesExtend a a :=
  ⟨fun _ _ => rfl, fun q hq => by rw [bindCount_eq_zero_of_not_keymem hq]; omega⟩

theorem NodesExtend_trans {a b c : List (Vec3 × Nat)}
    (h1 : NodesExtend a b) (h2 : NodesExtend b c) : NodesExtend a c := by
  constructor
  · intro q hq
    have hb : nodesKeyMem b q := by
      rw [nodesKeyMem_iff_bindCount_pos, h1.1 q hq]
      exact (nodesKeyMem_iff_bindCount_pos a q).mp hq
    rw [h2.1 q hb, h1.1 q hq]
  · intro q hq
    by_cases hb : nodesKeyMem b q
    · rw [h2.1 q hb]
      exact h1.2 q hq
    · exact h2.2 q hb

theorem NodesExtend_cons {a : List (Vec3 × Nat)} {p : Vec3} {h : Nat}
    (hp : ¬ nodesKeyMem a p) : NodesExtend a ((p, h) :: a) := by
  constructor
  · intro q hq
    unfold nodesBindCount
    rw [List.countP_cons]
    have hne : ¬ ((p, h).1 = q) := fun he => hp (by
      rw [show p = q from he]
      exact hq)
    simp [hne]
  · intro q hq
    have h0 := bindCount_eq_zero_of_not_keymem hq
    unfold nodesBindCount at h0 ⊢
    rw [List.countP_cons, h0]
    split <;> omega

/-- A single segment step of `grow_segments` either leaves the grown-node
table unchanged or conses exactly one binding for a position that was
unbound. -/
theorem growSegEndNode_nodes_shape (o : GrowOptions) (off : Vec3 × ℝ)
    (node : Nat) (ndataE : SPoint) (w : WalkState) (s : GrowState) :
    (growSegEndNode o off node ndataE w s).nodes = s.nodes ∨
    ∃ (q : Vec3) (h : Nat), ¬ nodesKeyMem s.nodes q ∧
      (growSegEndNode o off node ndataE w s).nodes = (q, h) :: s.nodes := by
  unfold growSegEndNode
  dsimp only
  split
  · exact Or.inl rfl
  · split
    · exact Or.inr ⟨_, _, by assumption, rfl⟩
    · exact Or.inr ⟨_, _, by assumption, rfl⟩

theorem growSegOne_nodes_shape (o : GrowOptions) (off : Vec3 × ℝ) (p : Nat)
    (acc : GrowState × Bool) (segm : Segment SPoint) :
    (growSegOne o off p acc segm).1.nodes = acc.1.nodes ∨
    ∃ (q : Vec3) (h : Nat), ¬ nodesKeyMem acc.1.nodes q ∧
      (growSegOne o off p acc segm).1.nodes = (q, h) :: acc.1.nodes := by
  unfold growSegOne
  dsimp only
  repeat' split
  all_goals first
    | exact Or.inl rfl
    | exact growSegEndNode_nodes_shape _ _ _ _ _ _

theorem growSegOne_nodes (o : GrowOptions) (off : Vec3 × ℝ) (p : Nat)
    (acc : GrowState × Bool) (segm : Segment SPoint) :
    NodesExtend acc.1.nodes (growSegOne o off p acc segm).1.nodes := by
  rcases growSegOne_nodes_shape o off p acc segm with h | ⟨q, hh, hq, h⟩
  · rw [h]
    exact NodesExtend_refl _
  · rw [h]
    exact NodesExtend_cons hq

theorem growSegs_fold_nodes (o : GrowOptions) (off : Vec3 × ℝ) (p : Nat)
    (l : List (Segment SPoint)) :
    ∀ acc : GrowState × Bool,
      NodesExtend acc.1.nodes ((l.foldl (growSegOne o off p) acc).1.nodes) := by
  induction l with
  | nil => exact fun acc => NodesExtend_refl _
  | cons a t ih =>
    intro acc
    rw [List.foldl_cons]
    exact NodesExtend_trans (growSegOne_nodes o off p acc a) (ih _)

theorem NodesExtend_foldl {β : Type _} (f : GrowState → β → GrowState)
    (hf : ∀ s b, NodesExtend s.nodes (f s b).nodes) (l : List β) :
    ∀ s : GrowState, NodesExtend s.nodes ((l.foldl f s).nodes) := by
  induction l with
  | nil => exact fun s => NodesExtend_refl _
  | cons a t ih =>
    intro s
    rw [List.foldl_cons]
    exact NodesExtend_trans (hf s a) (ih _)

/-- The whole recursive walk of `grow_segments` never rebinds a grown
position. -/
theorem grow_segments_nodes (dagnodes : Nat → List Nat)
    (ns : NodeSegments SPoint) (off : Vec3 × ℝ) (o : GrowOptions) :
    ∀ (fuel : Nat) (p : Nat) (depth : Int) (s : GrowState),
      NodesExtend s.nodes (grow_segments fuel dagnodes ns off o p depth s).nodes := by
  intro fuel
  induction fuel with
  | zero => exact fun p depth s => NodesExtend_refl _
  | succ fuel ih =>
    intro p depth s
    rw [grow_segments]
    dsimp only
    split
    · exact NodesExtend_refl _
    · split
      · exact NodesExtend_refl _
      · split
        · exact NodesExtend_refl _
        · split
          · exact growSegs_fold_nodes o off p (dget ns p)
              ({ s with visited := s.visited ++ [p] }, false)
          · exact NodesExtend_trans
              (growSegs_fold_nodes o off p (dget ns p)
                ({ s with visited := s.visited ++ [p] }, false))
              (NodesExtend_foldl _ (fun s' cn => ih cn _ s') (dagnodes p) _)

noncomputable section
open scoped Classical

/-- C1 counterexample inputs: one root (node 1) with two outgoing oriented
segments, both of whose first samples sit at the root position `(5,0,0)`;
options in non-inflate mode (`k_INFLATE_SOMA = False`, the verbosity-0
configuration) at logging level INFO for the remaining switches. -/
def c1ns : NodeSegments SPoint :=
  [(1, [{ start := 1, end_ := 2,
          points := [{ position := ((5 : ℝ), 0, 0), diameter := 2 },
                     { position := ((9 : ℝ), 0, 0), diameter := 2 }] },
        { start := 1, end_ := 3,
          points := [{ position := ((5 : ℝ), 0, 0), diameter := 2 },
                     { position := ((5 : ℝ), 4, 0), diameter := 2 }] }])]

def c1opts : GrowOptions := { optsDefault with k_INFLATE_SOMA := false }

def c1s0 : GrowState :=
  { nodes := [], visited := [], morph := emptyMorph, stats := {}, err := false }

end

/-- C1 counterexample: `grow_soma` assigns `nodes[npos]` once per outgoing
oriented segment of a root, so the root position `(5,0,0)` receives two
bindings, and in non-inflate mode two `soma.grow` calls materialize it —
refuting "at most one binding and at most one grow call per node
position". -/
theorem C1_counterexample :
    nodesBindCount (grow_soma [1] c1ns (((0 : ℝ), 0, 0), 0) c1opts c1s0).nodes
      (((5 : ℝ), 0, 0) : Vec3) = 2 ∧
    (grow_soma [1] c1ns (((0 : ℝ), 0, 0), 0) c1opts c1s0).morph.creations.length = 2 := by
  constructor <;>
    norm_num [grow_soma, growSomaSegment, c1ns, c1opts, c1s0, optsDefault, dget,
      vadjust_zero, vsub3, vmuls3, morphGrowNew, morphMovePoint, statsGrowAppend,
      emptyMorph, nodesBindCount, List.countP_cons, List.countP_nil]

/-- C1 amended: the single-growth law holds for `grow_segments` — across
the whole recursive walk, a position already present in the grown-node
table keeps its binding count (it is never rebound: the end-node
assignment is guarded by `npos not in nodes` and interior growth never
touches the table), and a position not yet present receives at most one
binding.  `grow_soma`, by contrast, assigns a root's position once per
outgoing oriented segment, so a root with several segments receives
several bindings and, in non-inflate mode, several grow calls (see the
counterexample). -/
theorem C1_grow_segments_single_binding (fuel : Nat)
    (dagnodes : Nat → List Nat) (ns : NodeSegments SPoint) (off : Vec3 × ℝ)
    (o : GrowOptions) (p : Nat) (depth : Int) (s : GrowState) (q : Vec3) :
    (nodesKeyMem s.nodes q →
      nodesBindCount (grow_segments fuel dagnodes ns off o p depth s).nodes q =
        nodesBindCount s.nodes q) ∧
    (¬ nodesKeyMem s.nodes q →
      nodesBindCount (grow_segments fuel dagnodes ns off o p depth s).nodes q ≤ 1) :=
  ⟨fun h => (grow_segments_nodes dagnodes ns off o fuel p depth s).1 q h,
   fun h => (grow_segments_nodes dagnodes ns off o fuel p depth s).2 q h⟩

theorem C1_witness :
    nodesKeyMem [((((1 : ℝ), 0, 0) : Vec3), 7)] (((1 : ℝ), 0, 0) : Vec3) ∧
    nodesBindCount (grow_segments 3 (fun _ => []) [] (((0 : ℝ), 0, 0), 0)
      optsDefault 5 (-1)
      { nodes := [((((1 : ℝ), 0, 0) : Vec3), 7)], visited := [],
        morph := emptyMorph, stats := {}, err := false }).nodes
      (((1 : ℝ), 0, 0) : Vec3) =
    nodesBindCount [((((1 : ℝ), 0, 0) : Vec3), 7)] (((1 : ℝ), 0, 0) : Vec3) :=
  ⟨by simp [nodesKeyMem],
   (C1_grow_segments_single_binding 3 (fun _ => []) [] (((0 : ℝ), 0, 0), 0)
      optsDefault 5 (-1)
      { nodes := [((((1 : ℝ), 0, 0) : Vec3), 7)], visited := [],
        morph := emptyMorph, stats := {}, err := false }
      (((1 : ℝ), 0, 0) : Vec3)).1 (by simp [nodesKeyMem])⟩

/-! ### Cut propagation through one segment (for C4) -/

/-- If the first interior sample is a cut point, the walk stops there,
sets the cut flag, and counts exactly one cut node (whatever the
soma-clip and threshold branches do). -/
theorem walkInterior_cut_head (o : GrowOptions) (off : Vec3 × ℝ) (node : Nat)
    (pt : SPoint) (rest : List SPoint) (w : WalkState)
    (h : (w.cut || is_cut_point pt.position o.k_CUTPOINT_AABB) = true) :
    (walkInterior o off node (pt :: rest) w).cut = true ∧
    (walkInterior o off node (pt :: rest) w).stats.warn_cut_nodes_found =
      w.stats.warn_cut_nodes_found + 1 := by
  rw [walkInterior]
  dsimp only
  rw [h, if_pos rfl]
  cases hsp : w.sp with
  | none =>
    dsimp only
    split <;>
      simp [bumpCutFound, statsGrowAppend]
  | some sp =>
    dsimp only
    split <;>
      simp [bumpCutFound, bumpIgnoredPos, statsGrowAppend]

/-- End-node handling under a set cut flag: one more cut node is counted
and the end position is registered in (or already present in) the
grown-node table; the visited list and error flag are untouched. -/
theorem growSegEndNode_cut (o : GrowOptions) (off : Vec3 × ℝ) (node : Nat)
    (ndataE : SPoint) (w : WalkState) (s : GrowState) (hw : w.cut = true) :
    (growSegEndNode o off node ndataE w s).stats.warn_cut_nodes_found =
      w.stats.warn_cut_nodes_found + 1 ∧
    nodesKeyMem (growSegEndNode o off node ndataE w s).nodes ndataE.position ∧
    (growSegEndNode o off node ndataE w s).visited = s.visited ∧
    (growSegEndNode o off node ndataE w s).err = s.err := by
  unfold growSegEndNode
  dsimp only
  rw [hw]
  split
  · next hmem =>
    refine ⟨by simp [bumpCutFound], hmem, rfl, rfl⟩
  · next hmem =>
    split <;>
      simp [bumpCutFound, statsGrowAppend, nodesKeyMem]

/-- A node with no oriented segments and no DAG children changes nothing
but its own visited mark. -/
theorem grow_segments_child_trivial (dagnodes : Nat → List Nat)
    (ns : NodeSegments SPoint) (off : Vec3 × ℝ) (o : GrowOptions)
    (fuel : Nat) (c : Nat) (s : GrowState)
    (hseg : dget ns c = []) (hch : dagnodes c = []) :
    (grow_segments fuel dagnodes ns off o c (-1) s).stats = s.stats ∧
    (grow_segments fuel dagnodes ns off o c (-1) s).nodes = s.nodes ∧
    (grow_segments fuel dagnodes ns off o c (-1) s).err = s.err := by
  cases fuel with
  | zero => exact ⟨rfl, rfl, rfl⟩
  | succ fuel =>
    rw [grow_segments]
    dsimp only
    split
    · exact ⟨rfl, rfl, rfl⟩
    · split
      · simp at *
      · split
        · exact ⟨rfl, rfl, rfl⟩
        · rw [hseg, hch]
          simp only [List.foldl_nil]
          split
          · exact ⟨rfl, rfl, rfl⟩
          · exact ⟨rfl, rfl, rfl⟩

/-- Folding the recursion over trivial children changes nothing but
visited marks. -/
theorem grow_children_fold_trivial (dagnodes : Nat → List Nat)
    (ns : NodeSegments SPoint) (off : Vec3 × ℝ) (o : GrowOptions)
    (fuel : Nat) (l : List Nat)
    (hl : ∀ c ∈ l, dget ns c = [] ∧ dagnodes c = []) :
    ∀ s : GrowState,
      (l.foldl (fun acc cn =>
        grow_segments fuel dagnodes ns off o cn (-1) acc) s).stats = s.stats ∧
      (l.foldl (fun acc cn =>
        grow_segments fuel dagnodes ns off o cn (-1) acc) s).nodes = s.nodes := by
  induction l with
  | nil => exact fun s => ⟨rfl, rfl⟩
  | cons c t ih =>
    intro s
    rw [List.foldl_cons]
    obtain ⟨h1, h2, _⟩ := grow_segments_child_trivial dagnodes ns off o fuel c s
      (hl c (List.mem_cons_self _ _)).1 (hl c (List.mem_cons_self _ _)).2
    obtain ⟨h3, h4⟩ := ih (fun x hx => hl x (List.mem_cons_of_mem _ hx))
      (grow_segments fuel dagnodes ns off o c (-1) s)
    exact ⟨h3.trans h1, h4.trans h2⟩

/-- Reduction of one segment-loop iteration when the start sample is not a
cut point: the iteration walks the interior samples and hands the last
sample to the end-node block, leaving `is_parent_cut` unset. -/
theorem growSegOne_reduce (o : GrowOptions) (off : Vec3 × ℝ) (p node : Nat)
    (seg : Segment SPoint) (p0 p1 : SPoint) (rest : List SPoint)
    (s1 : GrowState) (herr1 : s1.err = false) (hstart : seg.start = p)
    (hpts : seg.points = p0 :: p1 :: rest)
    (hc0 : is_cut_point p0.position o.k_CUTPOINT_AABB = false)
    (hlook : nodesLookup s1.nodes p0.position = some node) :
    growSegOne o off p (s1, false) seg =
      (growSegEndNode o off node ((p1 :: rest).getLastD p0)
        (walkInterior o off node ((p1 :: rest).dropLast)
          { sp := none, cut := false, morph := s1.morph, stats := s1.stats })
        s1, false) := by
  unfold growSegOne
  dsimp only
  rw [herr1, hpts]
  rw [if_neg (by simp)]
  rw [if_neg (by simp)]
  rw [if_neg (fun hne => hne hstart)]
  rw [if_neg (by simp only [List.length_cons]; omega)]
  dsimp only
  rw [hlook]
  dsimp only
  rw [hc0]
  rw [if_neg (by simp)]
  simp only [List.drop_one, List.tail_cons]

noncomputable section
open scoped Classical

/-- C4 counterexample inputs: node 1 has one oriented segment towards
node 2 whose first sample `(0,0,0)` lies inside the configured AABB
`[-10,10]^3`, whose second sample `(20,0,0)` lies outside it, and whose
last sample `(5,0,0)` lies inside again; the DAG is `{1:[2], 2:[]}`, the
start position is already grown, and soma clipping is off. -/
def c4box : Vec3 × Vec3 := ((((-10 : ℝ), -10, -10) : Vec3), (((10 : ℝ), 10, 10) : Vec3))

def c4seg : Segment SPoint :=
  { start := 1, end_ := 2,
    points := [{ position := ((0 : ℝ), 0, 0), diameter := 0 },
               { position := ((20 : ℝ), 0, 0), diameter := 0 },
               { position := ((5 : ℝ), 0, 0), diameter := 0 }] }

def c4ns : NodeSegments SPoint := [(1, [c4seg])]

def c4dag : Nat → List Nat := fun n => if n = 1 then [2] else []

def c4opts : GrowOptions :=
  { optsDefault with k_CUTPOINT_AABB := some c4box, k_CLIP_INSIDE_SOMA := false }

def c4s0 : GrowState :=
  { nodes := [((((0 : ℝ), 0, 0) : Vec3), 7)], visited := [], morph := emptyMorph,
    stats := {}, err := false }

end

/-- C4 counterexample: when the walk of node 1's segment first leaves the
AABB at the second sample, the cut is counted twice — once by the interior
loop when it breaks and once more by the end-node block — so the cut-node
counter ends at 2, not 1; and the segment's end node (the child, node 2,
at position `(5,0,0)`) IS registered in the grown-node table, since
`is_parent_cut` is only ever set from a segment's start sample and the
end-node block runs regardless of the interior cut. -/
theorem C4_counterexample :
    (grow_segments 3 c4dag c4ns (((0 : ℝ), 0, 0), 0) c4opts 1 (-1)
        c4s0).stats.warn_cut_nodes_found = 2 ∧
    nodesKeyMem (grow_segments 3 c4dag c4ns (((0 : ℝ), 0, 0), 0) c4opts 1 (-1)
        c4s0).nodes (((5 : ℝ), 0, 0) : Vec3) := by
  constructor <;>
    norm_num [grow_segments, growSegOne, growSegEndNode, walkInterior, c4dag,
      c4ns, c4seg, c4opts, c4s0, c4box, optsDefault, dget, is_cut_point,
      inside_aabb, vadjust_zero, vsub3, vmuls3, nodesLookup, nodesKeyMem,
      morphGrowNew, morphExtend, morphMarkCut, statsGrowAppend, bumpCutFound,
      bumpIgnoredPos, bumpMaxDepth, emptyMorph, distance_squared, square]

/-- C4: amended cut behaviour.  When a node's segment walk first meets a
cut point at the second sample (the first interior point) — the start
sample not being cut, the segment having at least three samples, the
start position already grown, and the node's children having no segments
or children of their own — the cut-node counter increases by exactly 2
(the interior loop counts the cut when it breaks, and the end-node block
counts it again), and the position of the segment's last sample (the
child end node) IS registered in the grown-node table: the cut does not
suppress the subtree, since `is_parent_cut` is only set from a segment's
start sample. -/
theorem C4_cut_second_sample (o : GrowOptions) (dagnodes : Nat → List Nat)
    (ns : NodeSegments SPoint) (off : Vec3 × ℝ) (fuel : Nat) (p node : Nat)
    (s : GrowState) (seg : Segment SPoint) (p0 p1 : SPoint)
    (rest : List SPoint)
    (herr : s.err = false) (hvis : p ∉ s.visited)
    (hseg : dget ns p = [seg]) (hstart : seg.start = p)
    (hpts : seg.points = p0 :: p1 :: rest) (hrest : rest ≠ [])
    (hc0 : is_cut_point p0.position o.k_CUTPOINT_AABB = false)
    (hc1 : is_cut_point p1.position o.k_CUTPOINT_AABB = true)
    (hlook : nodesLookup s.nodes p0.position = some node)
    (hch : ∀ c ∈ dagnodes p, dget ns c = [] ∧ dagnodes c = []) :
    (grow_segments (fuel + 1) dagnodes ns off o p (-1)
        s).stats.warn_cut_nodes_found =
      s.stats.warn_cut_nodes_found + 2 ∧
    nodesKeyMem (grow_segments (fuel + 1) dagnodes ns off o p (-1) s).nodes
      ((seg.points.drop 1).getLastD p0).position := by
  obtain ⟨r, rs, rfl⟩ : ∃ r rs, rest = r :: rs := by
    cases rest with
    | nil => exact absurd rfl hrest
    | cons r rs => exact ⟨r, rs, rfl⟩
  have herr1 : ({ s with visited := s.visited ++ [p] } : GrowState).err = false := herr
  have hlook1 : nodesLookup ({ s with visited := s.visited ++ [p] } : GrowState).nodes
      p0.position = some node := hlook
  have hstep : grow_segments (fuel + 1) dagnodes ns off o p (-1) s =
      (dagnodes p).foldl
        (fun acc cn => grow_segments fuel dagnodes ns off o cn (-1) acc)
        (growSegEndNode o off node ((p1 :: r :: rs).getLastD p0)
          (walkInterior o off node (p1 :: (r :: rs).dropLast)
            { sp := none, cut := false, morph := s.morph, stats := s.stats })
          { s with visited := s.visited ++ [p] }) := by
    rw [grow_segments]
    dsimp only
    rw [if_neg (by simp [herr])]
    rw [if_neg (by decide)]
    rw [if_neg hvis]
    rw [hseg]
    dsimp only [List.foldl_cons, List.foldl_nil]
    rw [growSegOne_reduce o off p node seg p0 p1 (r :: rs)
      { s with visited := s.visited ++ [p] } herr1 hstart hpts hc0 hlook1]
    dsimp only
    rw [if_neg (by simp)]
    have hd : (if (-1 : Int) > 0 then (-1 : Int) - 1 else -1) = -1 := by norm_num
    simp only [hd]
    rfl
  rw [hstep]
  obtain ⟨hfs, hfn⟩ := grow_children_fold_trivial dagnodes ns off o fuel
    (dagnodes p) hch
    (growSegEndNode o off node ((p1 :: r :: rs).getLastD p0)
      (walkInterior o off node (p1 :: (r :: rs).dropLast)
        { sp := none, cut := false, morph := s.morph, stats := s.stats })
      { s with visited := s.visited ++ [p] })
  rw [hfs, hfn]
  have hw := walkInterior_cut_head o off node p1 ((r :: rs).dropLast)
    { sp := none, cut := false, morph := s.morph, stats := s.stats }
    (by simp [hc1])
  have he := growSegEndNode_cut o off node ((p1 :: r :: rs).getLastD p0)
    (walkInterior o off node (p1 :: (r :: rs).dropLast)
      { sp := none, cut := false, morph := s.morph, stats := s.stats })
    { s with visited := s.visited ++ [p] } hw.1
  refine ⟨?_, ?_⟩
  · rw [he.1, hw.2]
  · have hpos : ((seg.points.drop 1).getLastD p0) = ((p1 :: r :: rs).getLastD p0) := by
      rw [hpts]
      simp only [List.drop_one, List.tail_cons]
    rw [hpos]
    exact he.2.1

theorem C4_witness :
    (grow_segments (2 + 1) c4dag c4ns (((0 : ℝ), 0, 0), 0) c4opts 1 (-1)
        c4s0).stats.warn_cut_nodes_found =
      c4s0.stats.warn_cut_nodes_found + 2 ∧
    nodesKeyMem (grow_segments (2 + 1) c4dag c4ns (((0 : ℝ), 0, 0), 0) c4opts
        1 (-1) c4s0).nodes
      ((c4seg.points.drop 1).getLastD
        { position := ((0 : ℝ), 0, 0), diameter := 0 }).position :=
  C4_cut_second_sample c4opts c4dag c4ns (((0 : ℝ), 0, 0), 0) 2 1 7 c4s0 c4seg
    { position := ((0 : ℝ), 0, 0), diameter := 0 }
    { position := ((20 : ℝ), 0, 0), diameter := 0 }
    [{ position := ((5 : ℝ), 0, 0), diameter := 0 }]
    rfl (by simp [c4s0]) (by simp [c4ns, dget]) rfl rfl (by simp)
    (by norm_num [is_cut_point, inside_aabb, c4opts, c4box, optsDefault])
    (by norm_num [is_cut_point, inside_aabb, c4opts, c4box, optsDefault])
    (by simp [c4s0, nodesLookup])
    (by
      intro c hc
      simp [c4dag] at hc
      subst hc
      exact ⟨by simp [c4ns, dget], by simp [c4dag]⟩)

end Skeletonizer
